import Mathlib

/-!
Verification of the weightlifting-WOD ETL core against its specification.

The Python sources are shallowly embedded as executable Lean definitions:

* `src/transforms.py` — the interval-partitioning primitive
  (`partition_by`, `get_pairwise_series_indexes`, `get_groups`,
  `group_source_by`), the date-range extractor
  (`extract_date_range_from_slug_or_title`), the day/block segmenters
  (`segment_days`), the per-day record builder
  (`sessions_to_json_records_by_day`) and the record normalizer
  (`clean_sessions_df_records`).
* `src/services/idempotency_service.py` — `generate_key` (SHA-256 of
  "operation:identifier") and `check`.
* `src/handler.py` — the date validation performed by
  `save_sessions_to_bucket`.

Modelling conventions:

* Python lists become `List`, Python dicts become ordered association
  lists (`Dict` below) with Python's assignment semantics (updating an
  existing key keeps its position, new keys are appended).
* `datetime.date` values become `Int` day numbers (days since
  1970-01-01); `datetime.date(y, m, d)` becomes `dateFromYMD`, which
  validates exactly the calendar range Python validates and converts via
  the standard civil-from-days algorithm; `str(date)` becomes
  `dateToStr`; `timedelta(days = n)` is integer addition.
* The two external date parsers (`dateutil.parser.parse`) are modelled
  on the ISO `Y-M-D` shape (`parse_iso`), which is the shape this
  pipeline feeds them; `datetime.date.today()` is passed in as an
  explicit `today` argument.
* The three `re` patterns used by the extractor have the property that
  every quantified character class is disjoint from the character that
  must follow it, so Python's leftmost backtracking search coincides
  with the leftmost maximal-munch search implemented here.
* The DynamoDB client is modelled as an oracle `String → Except String
  (Option IdempotencyRecord)` giving, per key, either the stored item,
  no item, or a query error (a raised `ClientError`).
-/

namespace WodEtl

/-! ### Character classes and small string helpers -/

/-- Python regex `\d` (ASCII, as used on slug/title text). -/
def isDigitChar (c : Char) : Bool := '0' ≤ c && c ≤ '9'

/-- Python regex `\w` (ASCII letters, digits and underscore). -/
def isWordChar (c : Char) : Bool := c.isAlpha || isDigitChar c || c == '_'

/-- Python regex `\s` (ASCII whitespace). -/
def isSpaceChar (c : Char) : Bool :=
  c == ' ' || c == '\t' || c == '\n' || c == '\r' || c == '\x0b' || c == '\x0c'

/-- Python `int(...)` on a nonempty digit string. -/
def digitsToNat (g : List Char) : Nat :=
  g.foldl (fun n c => 10 * n + (c.toNat - 48)) 0

/-- Python `' '.join(xs)`. -/
def joinSpace (l : List String) : String := String.intercalate " " l

/-- Decimal rendering of `n` left-padded with zeros to width `w`
(Python `%04d` / `%02d`, as used by `str(date)` and `strftime`). -/
def padNat (w n : Nat) : String :=
  let s := Nat.repr n
  String.mk (List.replicate (w - s.length) '0') ++ s

/-- One step of Python `str.replace(pat, rep)`: non-overlapping,
left-to-right. `fuel` starts at the length of the text, which bounds the
number of steps since `pat` is nonempty at every call site. -/
def replaceAllGo (pat rep : List Char) : Nat → List Char → List Char
  | _, [] => []
  | 0, cs => cs
  | fuel + 1, c :: rest =>
    if pat.isPrefixOf (c :: rest) && !pat.isEmpty then
      rep ++ replaceAllGo pat rep fuel ((c :: rest).drop pat.length)
    else
      c :: replaceAllGo pat rep fuel rest

/-- Python `text.replace(pat, rep)` on character lists. -/
def replaceAll (pat rep cs : List Char) : List Char :=
  replaceAllGo pat rep cs.length cs

/-! ### Calendar arithmetic

`datetime.date` is modelled as an `Int` counting days since 1970-01-01,
using the standard civil-calendar conversion algorithms.  All divisions
below act on nonnegative operands for every input reachable from
`dateFromYMD`, so the rounding convention is immaterial. -/

/-- Gregorian leap year (as in `calendar.isleap`). -/
def isLeapYear (y : Nat) : Bool := (y % 4 == 0 && y % 100 != 0) || y % 400 == 0

/-- Length of month `m` of year `y` (Python `calendar.monthrange`
semantics; used by `datetime.date`'s validity check). -/
def daysInMonth (y m : Nat) : Nat :=
  if m == 2 then (if isLeapYear y then 29 else 28)
  else if m == 4 || m == 6 || m == 9 || m == 11 then 30
  else 31

/-- Day-number (days since 1970-01-01) of the civil date `(y, m, d)`,
with the day-of-month contribution kept syntactically additive. -/
def days_from_civil_base (y m : Nat) : Int :=
  let yi : Int := if m ≤ 2 then (y : Int) - 1 else (y : Int)
  let era : Int := (if 0 ≤ yi then yi else yi - 399) / 400
  let yoe : Int := yi - era * 400
  let mp : Int := if 2 < m then (m : Int) - 3 else (m : Int) + 9
  let doy0 : Int := (153 * mp + 2) / 5 - 1
  let doe0 : Int := yoe * 365 + yoe / 4 - yoe / 100 + doy0
  era * 146097 + doe0 - 719468

/-- Day-number of the civil date `(y, m, d)`. -/
def days_from_civil (y m d : Nat) : Int := days_from_civil_base y m + (d : Int)

/-- Python `datetime.date(year, month, day)`: validates the calendar
combination (`ValueError` becomes `none`) and yields the day number. -/
def dateFromYMD (y m d : Nat) : Option Int :=
  if 1 ≤ y ∧ y ≤ 9999 ∧ 1 ≤ m ∧ m ≤ 12 ∧ 1 ≤ d ∧ d ≤ daysInMonth y m then
    some (days_from_civil y m d)
  else none

/-- Inverse civil-calendar conversion: day-number to `(y, m, d)`. -/
def civil_from_days (z0 : Int) : Int × Int × Int :=
  let z := z0 + 719468
  let era := (if 0 ≤ z then z else z - 146096) / 146097
  let doe := z - era * 146097
  let yoe := (doe - doe / 1460 + doe / 36524 - doe / 146096) / 365
  let y := yoe + era * 400
  let doy := doe - (365 * yoe + yoe / 4 - yoe / 100)
  let mp := (5 * doy + 2) / 153
  let d := doy - (153 * mp + 2) / 5 + 1
  let m := mp + (if mp < 10 then 3 else -9)
  (y + (if m ≤ 2 then 1 else 0), m, d)

/-- Python `str(date)` / `date.strftime('%Y-%m-%d')`. -/
def dateToStr (z : Int) : String :=
  let c := civil_from_days z
  padNat 4 c.1.toNat ++ "-" ++ padNat 2 c.2.1.toNat ++ "-" ++ padNat 2 c.2.2.toNat

/-- Python `date.isoweekday()` (Monday = 1 … Sunday = 7) on day
numbers; 1970-01-01 was a Thursday. -/
def isoweekday (z : Int) : Int := (z + 3).emod 7 + 1

/-- Rendering of a `(y, m, d)` triple as `YYYY-MM-DD`
(`strftime('%Y-%m-%d')`). -/
def renderYMD (y m d : Nat) : String :=
  padNat 4 y ++ "-" ++ padNat 2 m ++ "-" ++ padNat 2 d

/-- Maximal-munch one-or-more matcher for a character class: the
longest nonempty prefix run satisfying `p`, plus the rest. -/
def takeClass1 (p : Char → Bool) (cs : List Char) : Option (List Char × List Char) :=
  let run := cs.takeWhile p
  if run.isEmpty then none else some (run, cs.drop run.length)

/-- Literal single-character matcher. -/
def litChar (c : Char) : List Char → Option (List Char)
  | [] => none
  | x :: rest => if x == c then some rest else none

/-- Exactly-`n` matcher for a character class (regex `{n}`). -/
def takeExact (n : Nat) (p : Char → Bool) (cs : List Char) : Option (List Char × List Char) :=
  let run := cs.take n
  if run.length == n && run.all p then some (run, cs.drop n) else none

/-- The external `dateutil.parser.parse(...).date()` call, modelled on
the ISO `Y-M-D` digit-group shape that this pipeline produces upstream:
three dash-separated digit groups forming a valid calendar date. -/
def parse_iso (s : String) : Option (Nat × Nat × Nat) := do
  let (gy, r1) ← takeClass1 isDigitChar s.data
  let r2 ← litChar '-' r1
  let (gm, r3) ← takeClass1 isDigitChar r2
  let r4 ← litChar '-' r3
  let (gd, r5) ← takeClass1 isDigitChar r4
  if r5.isEmpty then
    let y := digitsToNat gy
    let m := digitsToNat gm
    let d := digitsToNat gd
    if 1 ≤ y ∧ y ≤ 9999 ∧ 1 ≤ m ∧ m ≤ 12 ∧ 1 ≤ d ∧ d ≤ daysInMonth y m then
      pure (y, m, d)
    else none
  else none

/-! ### Python dicts as ordered association lists -/

/-- A Python dict with string keys and values, in insertion order. -/
abbrev Dict := List (String × String)

/-- Python `m[k] = v`: updating an existing key keeps its position,
a new key is appended. -/
def dictInsert (m : Dict) (k v : String) : Dict :=
  if m.any (fun kv => kv.1 == k) then
    m.map (fun kv => if kv.1 == k then (k, v) else kv)
  else m ++ [(k, v)]

/-- Python `m.get(k)`. -/
def dictGet (m : Dict) (k : String) : Option String :=
  (m.find? (fun kv => kv.1 == k)).map Prod.snd

/-! ### The interval-partitioning primitive (src/transforms.py 10-39, 115-128)

Regex predicates become boolean predicates `p : α → Bool`; Python's
two-element index lists `[current, nxt]` become pairs `Nat × Nat`. -/

/-- `partition_by(regex, source)`: the items matching the predicate,
with their indices (Python `enumerate` + `regex.search`). -/
def partition_by {α : Type} (p : α → Bool) (source : List α) : List (Nat × α) :=
  source.enum.filter (fun ia => p ia.2)

/-- `get_pairwise_series_indexes(masked_arr)`: consecutive pairs of the
matched indices (`more_itertools.pairwise`). -/
def get_pairwise_series_indexes {α : Type} (masked_arr : List (Nat × α)) : List (Nat × Nat) :=
  if masked_arr.isEmpty then []
  else
    let indices := masked_arr.map Prod.fst
    indices.zip indices.tail

/-- `get_groups(index_list, source)`: the slice `source[a:b]` for each
index pair `(a, b)`. -/
def get_groups {α : Type} (index_list : List (Nat × Nat)) (source : List α) : List (List α) :=
  index_list.map (fun x => (source.drop x.1).take (x.2 - x.1))

/-- `group_source_by(regex, source)` (src/transforms.py 115-128). -/
def group_source_by {α : Type} (p : α → Bool) (source : List α) : List (List α) :=
  let ms := partition_by p source
  if ms.isEmpty then []
  else
    let weekday_indexes := get_pairwise_series_indexes ms
    let weekday_indexes :=
      if weekday_indexes.isEmpty then weekday_indexes
      else weekday_indexes ++ [((weekday_indexes.getLastD (0, 0)).2, source.length)]
    get_groups weekday_indexes source

/-- The specification's reading of the primitive (spec §4.1): one
contiguous sub-sequence per satisfying index, each running from its
index to just before the next one, the last running to the end of the
input.  Stated from the spec's words for refinement comparison with
`group_source_by`. -/
def slicesOf {α : Type} (source : List α) : List Nat → List (List α)
  | [] => []
  | [i] => [source.drop i]
  | i :: j :: rest => (source.drop i).take (j - i) :: slicesOf source (j :: rest)

/-- Consecutive index pairs of a list, closed off with a final bound:
the index pairs that `group_source_by` feeds to `get_groups` when there
are at least two matches. -/
def consecPairs : List Nat → Nat → List (Nat × Nat)
  | [], _ => []
  | [i], n => [(i, n)]
  | i :: j :: rest, n => (i, j) :: consecPairs (j :: rest) n

/-! ### Date-range extraction (src/transforms.py 42-112) -/

/-- Regex `(\w+)-(\d+)-(\d+)-(\d{4})` matched at the start of `cs`
(slug form such as `april-1-7-2024`).  Every quantified class here is
disjoint from its follower, so maximal munch equals Python's
backtracking match. -/
def matchSlugPatternAt (cs : List Char) :
    Option (List Char × List Char × List Char × List Char) := do
  let (g1, r1) ← takeClass1 isWordChar cs
  let r2 ← litChar '-' r1
  let (g2, r3) ← takeClass1 isDigitChar r2
  let r4 ← litChar '-' r3
  let (g3, r5) ← takeClass1 isDigitChar r4
  let r6 ← litChar '-' r5
  let (g4, _) ← takeExact 4 isDigitChar r6
  pure (g1, g2, g3, g4)

/-- Regex `(\w+)\s+(\d+)-(\d+)[,\s]+(\d{4})` matched at the start of
`cs` (title form such as `April 1-7, 2024`). -/
def matchTitlePatternAt (cs : List Char) :
    Option (List Char × List Char × List Char × List Char) := do
  let (g1, r1) ← takeClass1 isWordChar cs
  let (_, r2) ← takeClass1 isSpaceChar r1
  let (g2, r3) ← takeClass1 isDigitChar r2
  let r4 ← litChar '-' r3
  let (g3, r5) ← takeClass1 isDigitChar r4
  let (_, r6) ← takeClass1 (fun c => c == ',' || isSpaceChar c) r5
  let (g4, _) ← takeExact 4 isDigitChar r6
  pure (g1, g2, g3, g4)

/-- Regex `(\w+)\s+(\d+)-(\d+)\s+(\d{4})` matched at the start of `cs`
(title variation without the comma). -/
def matchVariationPatternAt (cs : List Char) :
    Option (List Char × List Char × List Char × List Char) := do
  let (g1, r1) ← takeClass1 isWordChar cs
  let (_, r2) ← takeClass1 isSpaceChar r1
  let (g2, r3) ← takeClass1 isDigitChar r2
  let r4 ← litChar '-' r3
  let (g3, r5) ← takeClass1 isDigitChar r4
  let (_, r6) ← takeClass1 isSpaceChar r5
  let (g4, _) ← takeExact 4 isDigitChar r6
  pure (g1, g2, g3, g4)

/-- Python `pattern.search(text)`: the match at the leftmost position
admitting one. -/
def searchPattern (matchAt : List Char → Option (List Char × List Char × List Char × List Char)) :
    List Char → Option (List Char × List Char × List Char × List Char)
  | [] => none
  | c :: rest =>
    match matchAt (c :: rest) with
    | some g => some g
    | none => searchPattern matchAt rest

/-- The `month_names` lookup table (src/transforms.py 96-100), keyed by
lower-cased month name. -/
def month_names : List (List Char × Nat) :=
  [("january".data, 1), ("february".data, 2), ("march".data, 3), ("april".data, 4),
   ("may".data, 5), ("june".data, 6), ("july".data, 7), ("august".data, 8),
   ("september".data, 9), ("october".data, 10), ("november".data, 11), ("december".data, 12)]

/-- Title normalisation: `.replace('&#8211;', '-').replace('&ndash;', '-')`. -/
def normalizeTitle (cs : List Char) : List Char :=
  replaceAll "&ndash;".data "-".data (replaceAll "&#8211;".data "-".data cs)

/-- The title branch of the source-text choice: Python `elif title:`
(empty string is falsy) followed by the HTML-entity normalisation. -/
def titleText (title : Option String) : Option (List Char) :=
  match title with
  | some t => if t == "" then none else some (normalizeTitle t.data)
  | none => none

/-- The text-source choice of src/transforms.py 52-60: the slug when
truthy, else the normalised title when truthy, else nothing. -/
def sourceText (slug title : Option String) : Option (List Char) :=
  match slug with
  | some s => if s == "" then titleText title else some s.data
  | none => titleText title

/-- The pattern cascade of src/transforms.py 66-87: the slug pattern,
else the title pattern, else the comma-free variation. -/
def findDatePattern (cs : List Char) :
    Option (List Char × List Char × List Char × List Char) :=
  match searchPattern matchSlugPatternAt cs with
  | some g => some g
  | none =>
    match searchPattern matchTitlePatternAt cs with
    | some g => some g
    | none => searchPattern matchVariationPatternAt cs

/-- The month lookup and date construction of src/transforms.py 89-112:
a month name not in the table, or an invalid calendar combination
(`ValueError`), yields `(None, None)`. -/
def dateRangeOfMatch (g : List Char × List Char × List Char × List Char) :
    Option Int × Option Int :=
  match (month_names.find? (fun e => e.1 == g.1.map Char.toLower)).map Prod.snd with
  | none => (none, none)
  | some month =>
    match dateFromYMD (digitsToNat g.2.2.2) month (digitsToNat g.2.1),
          dateFromYMD (digitsToNat g.2.2.2) month (digitsToNat g.2.2.1) with
    | some s, some e => (some s, some e)
    | _, _ => (none, none)

/-- `extract_date_range_from_slug_or_title(slug, title)`
(src/transforms.py 42-112). -/
def extract_date_range_from_slug_or_title (slug title : Option String) :
    Option Int × Option Int :=
  match sourceText slug title with
  | none => (none, none)
  | some cs =>
    match findDatePattern cs with
    | none => (none, none)
    | some g => dateRangeOfMatch g

/-! ### Block segmentation (src/transforms.py 176-208) -/

/-- Unanchored substring search (`re.search` of a literal): does `pat`
occur contiguously in the text? -/
def containsSlice (pat : List Char) : List Char → Bool
  | [] => pat.isEmpty
  | c :: rest => pat.isPrefixOf (c :: rest) || containsSlice pat rest

/-- The block-segmentation regex
`(Session)|(Suggested Warm-Up)|^[A-F].$` with `re.IGNORECASE`, applied
by `re.search` to one line: an unanchored case-insensitive substring
match for the first two alternatives; the third requires the whole line
to be one letter `A`-`F` plus one further non-newline character (`$`
also matches just before a final newline). -/
def segmentMatch (s : String) : Bool :=
  let low := s.data.map Char.toLower
  containsSlice "session".data low || containsSlice "suggested warm-up".data low ||
    (match low with
     | [c, d] => ('a' ≤ c && c ≤ 'f') && d != '\n'
     | [c, d, '\n'] => ('a' ≤ c && c ≤ 'f') && d != '\n'
     | _ => false)

/-- `segment_days` (src/transforms.py 176-208) on its `sessions`
payload, one entry per day segment.  Python's
`[['session', x[0][0]], *x[1:]] if len(x) else [['session', 'rest day']]`
replaces the first partitioned block by a two-element synthetic
`session` block holding that block's first line, and keeps the
remaining blocks; a day with no partitioned block becomes the rest-day
sentinel.  (The dict wrapping and metadata passthrough around the
payload are plumbing and are not modelled.) -/
def segment_days (sessions : List (List String)) : List (List (List String)) :=
  sessions.map (fun session =>
    match group_source_by segmentMatch session with
    | [] => [["session", "rest day"]]
    | x0 :: rest => ["session", x0.headD ""] :: rest)

/-! ### Per-day session records (src/transforms.py 211-286) -/

/-- The event consumed by `sessions_to_json_records_by_day`, after the
decorator-unwrapping plumbing: the segmented day blocks plus the
carried-through metadata.  `post_date` stands for the already-parsed
publish date (`parse(post_date_str).date()`). -/
structure SessionsEvent where
  segmented_sessions : List (List (List String))
  slug : Option String
  title : Option String
  post_date : Option Int

/-- The start-date resolution of src/transforms.py 226-244: the
slug/title range start if present, else the publish date, else today. -/
def resolve_theday (slug title : Option String) (post_date : Option Int) (today : Int) : Int :=
  match (extract_date_range_from_slug_or_title slug title).1 with
  | some ds => ds
  | none =>
    match post_date with
    | some pd => pd
    | none => today

/-- The per-day dict comprehension of src/transforms.py 250-255: each
block's first line maps to the space-join of its remaining lines. -/
def buildSessionDict (blocks : List (List String)) : Dict :=
  blocks.foldl (fun m session => dictInsert m (session.headD "") (joinSpace session.tail)) []

/-- The record construction `{"date": str(dates[idx + 1]), **session}`
of src/transforms.py 258: a `date` entry first, then the session dict's
entries merged with Python dict semantics. -/
def recordOfSession (session : Dict) (dstr : String) : Dict :=
  session.foldl (fun m kv => dictInsert m kv.1 kv.2) [("date", dstr)]

/-- The `dates` local of src/transforms.py 247-248: the resolved week
start plus `0..N` days. -/
def assignedDates (ev : SessionsEvent) (today : Int) : List Int :=
  let theday := resolve_theday ev.slug ev.title ev.post_date today
  let start := theday - isoweekday theday
  (List.range (ev.segmented_sessions.length + 1)).map (fun (d : Nat) => start + (d : Int))

/-- The `sessions` local of src/transforms.py 250-255: one dict per
entry of `dates[1:]`, built from the day's blocks. -/
def sessionDicts (ev : SessionsEvent) (today : Int) : List Dict :=
  (assignedDates ev today).tail.enum.map
    (fun p => buildSessionDict (ev.segmented_sessions.getD p.1 []))

/-- The `session_records` local of src/transforms.py 258-259. -/
def sessionRecords (ev : SessionsEvent) (today : Int) : List Dict :=
  (sessionDicts ev today).enum.map
    (fun p => recordOfSession p.2 (dateToStr ((assignedDates ev today).getD (p.1 + 1) 0)))

/-- `sessions_to_json_records_by_day` (src/transforms.py 211-286),
decomposed into its locals above.  The final `min/max` validation over
`session_dates` raises `ValueError` on an empty record list when a
slug/title range was extracted; that uncaught exception is the `none`
result (its logging side effect is not modelled). -/
def sessions_to_json_records_by_day (ev : SessionsEvent) (today : Int) : Option (List Dict) :=
  match (extract_date_range_from_slug_or_title ev.slug ev.title).1,
        (extract_date_range_from_slug_or_title ev.slug ev.title).2 with
  | some _, some _ =>
    if (sessionRecords ev today).isEmpty then none else some (sessionRecords ev today)
  | _, _ => some (sessionRecords ev today)

/-! ### Record normalisation (src/transforms.py 289-343) -/

/-- The `column_mapping` table (src/transforms.py 291-298). -/
def column_mapping : List (String × String) :=
  [("Suggested Warm-Up", "warm_up"), ("A.", "segment_a"), ("B.", "segment_b"),
   ("C.", "segment_c"), ("D.", "segment_d"), ("E.", "segment_e")]

/-- The `expected_fields` list (src/transforms.py 310). -/
def expected_fields : List String :=
  ["warm_up", "segment_a", "segment_b", "segment_c", "segment_d", "segment_e"]

/-- The rename applied to one key: `column_mapping.get(old_key, old_key)`. -/
def renameKey (k : String) : String := (dictGet column_mapping k).getD k

/-- The per-record rename loop (src/transforms.py 314-320): rebuild the
dict with renamed keys, dropping the parsing-artifact keys `s` and `r`. -/
def clean_record_fields (record : Dict) : Dict :=
  record.foldl
    (fun m kv =>
      let nk := renameKey kv.1
      if nk == "s" || nk == "r" then m else dictInsert m nk kv.2)
    []

/-- Normalisation of one record (the body of the loop in
src/transforms.py 313-341).  Record values are strings here, as the
upstream pipeline produces; a `date` value the external parser rejects
is the uncaught `ValueError`, i.e. `none`.  The trailing
fill-`None`-values loop is the identity on string values. -/
def clean_one (record : Dict) : Option Dict := do
  let cr := clean_record_fields record
  let cr ← match dictGet cr "date" with
    | some ds =>
      match parse_iso ds with
      | none => none
      | some ymd => some (dictInsert cr "date" (renderYMD ymd.1 ymd.2.1 ymd.2.2))
    | none => some cr
  let cr := match dictGet cr "session" with
    | none => dictInsert cr "session" "Rest Day"
    | some _ => cr
  pure (expected_fields.foldl
    (fun m f => match dictGet m f with
      | none => dictInsert m f ""
      | some _ => m)
    cr)

/-- The Python accumulation loop over records, propagating an uncaught
exception. -/
def mapOption {α β : Type} (f : α → Option β) : List α → Option (List β)
  | [] => some []
  | a :: rest =>
    match f a with
    | none => none
    | some b =>
      match mapOption f rest with
      | none => none
      | some bs => some (b :: bs)

/-- `clean_sessions_df_records` (src/transforms.py 289-343) on its
record-list payload. -/
def clean_sessions_df_records (records : List Dict) : Option (List Dict) :=
  mapOption clean_one records

/-! ### Idempotency service (src/services/idempotency_service.py) -/

/-- 32-bit truncation. -/
def mask32 (x : Nat) : Nat := x % 4294967296

/-- 32-bit right rotation. -/
def rotr32 (n x : Nat) : Nat := mask32 ((x >>> n) ||| (x <<< (32 - n)))

/-- 32-bit addition. -/
def add32 (a b : Nat) : Nat := mask32 (a + b)

/-- SHA-256 `Ch`. -/
def sha_ch (x y z : Nat) : Nat := (x &&& y) ^^^ ((x ^^^ 4294967295) &&& z)

/-- SHA-256 `Maj`. -/
def sha_maj (x y z : Nat) : Nat := (x &&& y) ^^^ (x &&& z) ^^^ (y &&& z)

/-- SHA-256 `Σ0`. -/
def sigma_big0 (x : Nat) : Nat := rotr32 2 x ^^^ rotr32 13 x ^^^ rotr32 22 x

/-- SHA-256 `Σ1`. -/
def sigma_big1 (x : Nat) : Nat := rotr32 6 x ^^^ rotr32 11 x ^^^ rotr32 25 x

/-- SHA-256 `σ0`. -/
def sigma_small0 (x : Nat) : Nat := rotr32 7 x ^^^ rotr32 18 x ^^^ (x >>> 3)

/-- SHA-256 `σ1`. -/
def sigma_small1 (x : Nat) : Nat := rotr32 17 x ^^^ rotr32 19 x ^^^ (x >>> 10)

/-- The SHA-256 round constants (decimal). -/
def shaK : List Nat :=
  [1116352408, 1899447441, 3049323471, 3921009573, 961987163, 1508970993,
   2453635748, 2870763221, 3624381080, 310598401, 607225278, 1426881987,
   1925078388, 2162078206, 2614888103, 3248222580, 3835390401, 4022224774,
   264347078, 604807628, 770255983, 1249150122, 1555081692, 1996064986,
   2554220882, 2821834349, 2952996808, 3210313671, 3336571891, 3584528711,
   113926993, 338241895, 666307205, 773529912, 1294757372, 1396182291,
   1695183700, 1986661051, 2177026350, 2456956037, 2730485921, 2820302411,
   3259730800, 3345764771, 3516065817, 3600352804, 4094571909, 275423344,
   430227734, 506948616, 659060556, 883997877, 958139571, 1322822218,
   1537002063, 1747873779, 1955562222, 2024104815, 2227730452, 2361852424,
   2428436474, 2756734187, 3204031479, 3329325298]

/-- The SHA-256 initial hash state (decimal). -/
def shaH0 : List Nat :=
  [1779033703, 3144134277, 1013904242, 2773480762, 1359893119, 2600822924,
   528734635, 1541459225]

/-- Big-endian byte rendering of `x` in `n` bytes. -/
def natToBytesBE : Nat → Nat → List Nat
  | 0, _ => []
  | n + 1, x => natToBytesBE n (x >>> 8) ++ [x &&& 255]

/-- SHA-256 message padding: `0x80`, zeros to 56 mod 64, then the
64-bit big-endian bit length. -/
def shaPad (msg : List Nat) : List Nat :=
  let l := msg.length
  let k := (64 + 56 - (l + 1) % 64) % 64
  msg ++ [0x80] ++ List.replicate k 0 ++ natToBytesBE 8 (8 * l)

/-- Split a list into chunks of `n` (`fuel` bounds the recursion). -/
def chunksOf {α : Type} (n : Nat) : Nat → List α → List (List α)
  | _, [] => []
  | 0, _ => []
  | fuel + 1, l => l.take n :: chunksOf n fuel (l.drop n)

/-- Big-endian 32-bit words of a 64-byte block. -/
def bytesToWords : List Nat → List Nat
  | b0 :: b1 :: b2 :: b3 :: rest =>
    (((b0 <<< 8 ||| b1) <<< 8 ||| b2) <<< 8 ||| b3) :: bytesToWords rest
  | _ => []

/-- Extension of the 16-word schedule to 64 words (`n` = 48 steps). -/
def extendSchedule : Nat → List Nat → List Nat
  | 0, w => w
  | n + 1, w =>
    let i := w.length
    let next := add32 (add32 (w.getD (i - 16) 0) (sigma_small0 (w.getD (i - 15) 0)))
      (add32 (w.getD (i - 7) 0) (sigma_small1 (w.getD (i - 2) 0)))
    extendSchedule n (w ++ [next])

/-- One SHA-256 compression round on the eight-word state. -/
def compressRound (st : List Nat) (kw : Nat × Nat) : List Nat :=
  match st with
  | [a, b, c, d, e, f, g, h] =>
    let t1 := add32 h (add32 (sigma_big1 e) (add32 (sha_ch e f g) (add32 kw.1 kw.2)))
    let t2 := add32 (sigma_big0 a) (sha_maj a b c)
    [add32 t1 t2, a, b, c, add32 d t1, e, f, g]
  | _ => st

/-- Processing of one padded 64-byte block. -/
def processBlock (h : List Nat) (block : List Nat) : List Nat :=
  let w := extendSchedule 48 (bytesToWords block)
  let st := (shaK.zip w).foldl (fun s kw => compressRound s (kw.1, kw.2)) h
  List.zipWith add32 h st

/-- Lower-case hex rendering of one 32-bit word in 8 digits. -/
def wordToHex (x : Nat) : List Char :=
  let hexDigit := fun (n : Nat) =>
    if n < 10 then Char.ofNat (48 + n) else Char.ofNat (87 + n)
  (List.range 8).map (fun i => hexDigit ((x >>> (28 - 4 * i)) &&& 15))

/-- `hashlib.sha256(bytes).hexdigest()`. -/
def sha256hex (msg : List Nat) : String :=
  let padded := shaPad msg
  let final := (chunksOf 64 padded.length padded).foldl processBlock shaH0
  String.mk (final.foldr (fun w acc => wordToHex w ++ acc) [])

/-- UTF-8 encoding of one code point. -/
def utf8EncodeChar (n : Nat) : List Nat :=
  if n < 0x80 then [n]
  else if n < 0x800 then [0xc0 ||| (n >>> 6), 0x80 ||| (n &&& 0x3f)]
  else if n < 0x10000 then
    [0xe0 ||| (n >>> 12), 0x80 ||| ((n >>> 6) &&& 0x3f), 0x80 ||| (n &&& 0x3f)]
  else
    [0xf0 ||| (n >>> 18), 0x80 ||| ((n >>> 12) &&& 0x3f),
     0x80 ||| ((n >>> 6) &&& 0x3f), 0x80 ||| (n &&& 0x3f)]

/-- Python `s.encode('utf-8')`. -/
def utf8Encode (s : String) : List Nat :=
  (s.data.map (fun c => utf8EncodeChar c.toNat)).flatten

/-- The pre-hash string `f"{operation}:{identifier}"` of
`IdempotencyService.generate_key`. -/
def keyString (operation identifier : String) : String :=
  operation ++ ":" ++ identifier

/-- `IdempotencyService.generate_key`
(src/services/idempotency_service.py 27-40). -/
def generate_key (operation identifier : String) : String :=
  sha256hex (utf8Encode (keyString operation identifier))

/-- The idempotency item shape written by `mark_complete`. -/
structure IdempotencyRecord where
  idempotency_key : String
  ttl : Nat
  completed_at : String

/-- `IdempotencyService.check` (src/services/idempotency_service.py
42-73).  `get_item` is the DynamoDB query oracle: per key, either the
stored item, no item, or a raised `ClientError`; Python's
`if not self.table_name` treats both `None` and the empty string as
unconfigured, and the `except` arm maps every query error to `False`. -/
def IdempotencyService.check (table_name : Option String)
    (get_item : String → Except String (Option IdempotencyRecord))
    (idempotency_key : String) : Bool :=
  match table_name with
  | none => false
  | some t =>
    if t == "" then false
    else
      match get_item idempotency_key with
      | .error _ => false
      | .ok none => false
      | .ok (some _) => true

/-! ### Batch persistence validation (src/handler.py 193-242) -/

/-- The two failure modes of the date scan in `save_sessions_to_bucket`:
an unparseable date (`ValueError` from `parse`) or no dates at all (the
explicit `raise ValueError("No dates found in session records")`). -/
inductive SaveSessionsError where
  | date_parse_error : String → SaveSessionsError
  | no_dates : SaveSessionsError
deriving DecidableEq

/-- The date-collection loop of src/handler.py 214-220: the parsed date
of every record carrying a `date` key, failing at the first
unparseable one. -/
def collect_dates : List Dict → Except SaveSessionsError (List (Nat × Nat × Nat))
  | [] => .ok []
  | record :: rest =>
    match dictGet record "date" with
    | none => collect_dates rest
    | some ds =>
      match parse_iso ds with
      | none => .error (.date_parse_error ds)
      | some ymd =>
        match collect_dates rest with
        | .error e => .error e
        | .ok l => .ok (ymd :: l)

/-- The validation portion of `save_sessions_to_bucket`
(src/handler.py 213-223): collect the dates and raise the no-dates
`ValueError` when none were found.  The subsequent S3 existence check
and write are external-store calls outside this core. -/
def save_sessions_to_bucket (records : List Dict) :
    Except SaveSessionsError (List (Nat × Nat × Nat)) :=
  match collect_dates records with
  | .error e => .error e
  | .ok dates => if dates.isEmpty then .error .no_dates else .ok dates

/-! ### Lemmas about the dict model -/

theorem dictGet_nil (k : String) : dictGet [] k = none := rfl

theorem dictGet_cons (a : String × String) (t : Dict) (k : String) :
    dictGet (a :: t) k = if a.1 == k then some a.2 else dictGet t k := by
  by_cases h : a.1 == k <;> simp [dictGet, List.find?, h]

theorem dictGet_overwrite (m : Dict) (k v k' : String) :
    dictGet (m.map (fun kv => if kv.1 == k then (k, v) else kv)) k' =
      if k' = k then (if m.any (fun kv => kv.1 == k) then some v else none)
      else dictGet m k' := by
  induction m with
  | nil => by_cases h : k' = k <;> simp [dictGet, h]
  | cons a t ih =>
    rw [List.map_cons]
    by_cases hak : a.1 = k
    · have hb : (a.1 == k) = true := beq_iff_eq.mpr hak
      rw [List.any_cons, hb]
      simp only [hb, if_true, Bool.true_or, if_true, dictGet_cons]
      by_cases hk : k' = k
      · have : ((k, v).1 == k') = true := beq_iff_eq.mpr hk.symm
        simp [this, hk]
      · have h1 : ((k, v).1 == k') = false := beq_eq_false_iff_ne.mpr (fun h => hk h.symm)
        have h2 : (a.1 == k') = false := by
          rw [hak]; exact beq_eq_false_iff_ne.mpr (fun h => hk h.symm)
        simp only [h1, Bool.false_eq_true, if_false, ih, if_neg hk, h2]
    · have hb : (a.1 == k) = false := beq_eq_false_iff_ne.mpr hak
      rw [List.any_cons, hb]
      simp only [hb, Bool.false_eq_true, if_false, Bool.false_or, dictGet_cons]
      by_cases hk : k' = k
      · have h2 : (a.1 == k') = false := by
          rw [hk]; exact beq_eq_false_iff_ne.mpr hak
        simp only [h2, Bool.false_eq_true, if_false, ih, if_pos hk]
      · by_cases hka : a.1 = k'
        · have h2 : (a.1 == k') = true := beq_iff_eq.mpr hka
          simp [h2, hk]
        · have h2 : (a.1 == k') = false := beq_eq_false_iff_ne.mpr hka
          simp only [h2, Bool.false_eq_true, if_false, ih, if_neg hk]

theorem dictGet_append (m₁ m₂ : Dict) (k : String) :
    dictGet (m₁ ++ m₂) k = (dictGet m₁ k).or (dictGet m₂ k) := by
  unfold dictGet
  rw [List.find?_append]
  cases List.find? (fun kv => kv.1 == k) m₁ <;> simp

theorem dictGet_dictInsert (m : Dict) (k v k' : String) :
    dictGet (dictInsert m k v) k' = if k' = k then some v else dictGet m k' := by
  unfold dictInsert
  by_cases hany : m.any (fun kv => kv.1 == k)
  · rw [if_pos hany, dictGet_overwrite]
    by_cases hk : k' = k <;> simp [hk, hany]
  · rw [if_neg hany, dictGet_append]
    by_cases hk : k' = k
    · have hnone : dictGet m k' = none := by
        unfold dictGet
        rw [List.find?_eq_none.2]
        · rfl
        · intro kv hkv hbeq
          rw [hk] at hbeq
          exact hany (List.any_eq_true.2 ⟨kv, hkv, hbeq⟩)
      rw [hk] at hnone ⊢
      rw [hnone, Option.none_or, if_pos rfl]
      simp [dictGet, List.find?]
    · have hb : ((k, v).1 == k') = false := beq_eq_false_iff_ne.mpr (fun h => hk h.symm)
      have h1 : dictGet [(k, v)] k' = none := by simp [dictGet, List.find?, hb]
      rw [h1, Option.or_none, if_neg hk]

theorem keys_overwrite (m : Dict) (k v : String) :
    (m.map (fun kv => if kv.1 == k then (k, v) else kv)).map Prod.fst
      = m.map Prod.fst := by
  rw [List.map_map]
  apply List.map_congr_left
  intro kv _
  by_cases h : kv.1 = k
  · have hb : (kv.1 == k) = true := beq_iff_eq.mpr h
    simp [hb, h, Function.comp]
  · have hb : (kv.1 == k) = false := beq_eq_false_iff_ne.mpr h
    simp [hb, Function.comp]

theorem keys_dictInsert (m : Dict) (k v : String) :
    (dictInsert m k v).map Prod.fst = m.map Prod.fst ∨
      (dictInsert m k v).map Prod.fst = m.map Prod.fst ++ [k] := by
  unfold dictInsert
  by_cases hany : m.any (fun kv => kv.1 == k)
  · left
    rw [if_pos hany]
    exact keys_overwrite m k v
  · right
    rw [if_neg hany, List.map_append]
    rfl

theorem mem_keys_dictInsert {m : Dict} {k v k' : String}
    (h : k' ∈ (dictInsert m k v).map Prod.fst) :
    k' ∈ m.map Prod.fst ∨ k' = k := by
  rcases keys_dictInsert m k v with he | he
  · rw [he] at h; exact Or.inl h
  · rw [he] at h
    rcases List.mem_append.1 h with h | h
    · exact Or.inl h
    · simp at h; exact Or.inr h

theorem nodup_keys_dictInsert {m : Dict} (k v : String)
    (h : (m.map Prod.fst).Nodup) : ((dictInsert m k v).map Prod.fst).Nodup := by
  unfold dictInsert
  by_cases hany : m.any (fun kv => kv.1 == k)
  · rw [if_pos hany, keys_overwrite]
    exact h
  · rw [if_neg hany, List.map_append]
    rw [List.nodup_append]
    refine ⟨h, by simp, ?_⟩
    intro a ha hb
    simp at hb
    subst hb
    apply hany
    rcases List.mem_map.1 ha with ⟨kv, hkv, hfst⟩
    exact List.any_eq_true.2 ⟨kv, hkv, by simp [hfst]⟩

/-- Master lemma for the dict-building folds: a left fold of conditional
inserts is looked up by taking the last applicable entry, else the
initial dict. -/
theorem dictGet_foldl {α : Type} (g : α → Option (String × String))
    (f : Dict → α → Dict) (hf : ∀ m a, f m a =
      match g a with
      | some kv => dictInsert m kv.1 kv.2
      | none => m) :
    ∀ (l : List α) (init : Dict) (k : String),
      dictGet (l.foldl f init) k =
        match (l.reverse.filterMap g).find? (fun kv => kv.1 == k) with
        | some kv => some kv.2
        | none => dictGet init k := by
  intro l
  induction l with
  | nil => intro init k; simp
  | cons a t ih =>
    intro init k
    rw [List.foldl_cons, ih]
    have hrev : (a :: t).reverse.filterMap g
        = t.reverse.filterMap g ++ List.filterMap g [a] := by
      rw [List.reverse_cons, List.filterMap_append]
    rw [hrev, List.find?_append]
    cases hfind : (t.reverse.filterMap g).find? (fun kv => kv.1 == k) with
    | some kv => simp [Option.or_some]
    | none =>
      simp only [Option.none_or]
      rw [hf]
      cases hg : g a with
      | none => simp [hg]
      | some kv =>
        rw [dictGet_dictInsert]
        by_cases hk : k = kv.1
        · simp [hg, List.find?, hk]
        · have : ¬(kv.1 == k) := by simpa using fun h => hk h.symm
          simp [hg, List.find?, this, hk]

/-- Keys of a dict built by a conditional-insert fold come from the
initial dict or from the applicable entries. -/
theorem mem_keys_foldl {α : Type} (g : α → Option (String × String))
    (f : Dict → α → Dict) (hf : ∀ m a, f m a =
      match g a with
      | some kv => dictInsert m kv.1 kv.2
      | none => m) :
    ∀ (l : List α) (init : Dict) (k : String),
      k ∈ ((l.foldl f init).map Prod.fst) →
      k ∈ init.map Prod.fst ∨ ∃ a ∈ l, ∃ v, g a = some (k, v) := by
  intro l
  induction l with
  | nil => intro init k h; exact Or.inl h
  | cons a t ih =>
    intro init k h
    rw [List.foldl_cons] at h
    rcases ih _ k h with hmem | ⟨b, hb, v, hgv⟩
    · rw [hf] at hmem
      cases hg : g a with
      | none => rw [hg] at hmem; exact Or.inl hmem
      | some kv =>
        rw [hg] at hmem
        rcases mem_keys_dictInsert hmem with hmem | hk
        · exact Or.inl hmem
        · subst hk
          exact Or.inr ⟨a, by simp, kv.2, by rw [hg]⟩
    · exact Or.inr ⟨b, by simp [hb], v, hgv⟩

/-- Nodup keys are preserved by the conditional-insert folds. -/
theorem nodup_keys_foldl {α : Type} (g : α → Option (String × String))
    (f : Dict → α → Dict) (hf : ∀ m a, f m a =
      match g a with
      | some kv => dictInsert m kv.1 kv.2
      | none => m) :
    ∀ (l : List α) (init : Dict), (init.map Prod.fst).Nodup →
      ((l.foldl f init).map Prod.fst).Nodup := by
  intro l
  induction l with
  | nil => intro init h; exact h
  | cons a t ih =>
    intro init h
    rw [List.foldl_cons]
    apply ih
    rw [hf]
    cases hg : g a with
    | none => exact h
    | some kv => exact nodup_keys_dictInsert _ _ h

/-! ### Lemmas about the interval-partitioning primitive -/

theorem getLastD_irrel {α : Type} (a : α) (t : List α) (d₁ d₂ : α) :
    (a :: t).getLastD d₁ = (a :: t).getLastD d₂ := by
  rw [List.getLastD_cons, List.getLastD_cons]

/-- The second component of the last pairwise index pair is the last
matched index. -/
theorem getLastD_snd_zip :
    ∀ (rest : List Nat) (i j : Nat),
      (((i :: j :: rest).zip (j :: rest)).getLastD (0, 0)).2 = (j :: rest).getLastD 0 := by
  intro rest
  induction rest with
  | nil => intro i j; rfl
  | cons k rest' ih =>
    intro i j
    show (((i, j) :: (j :: k :: rest').zip (k :: rest')).getLastD (0, 0)).2
      = (j :: k :: rest').getLastD 0
    rw [List.getLastD_cons]
    have h2 : (j :: k :: rest').zip (k :: rest') = (j, k) :: (k :: rest').zip rest' := rfl
    rw [h2, getLastD_irrel (j, k) ((k :: rest').zip rest') (i, j) (0, 0), ← h2, ih j k]
    have h3 : (k :: rest').getLastD 0 = rest'.getLastD k := List.getLastD_cons 0 k rest'
    have h4 : (j :: k :: rest').getLastD 0 = rest'.getLastD k := by
      rw [List.getLastD_cons, List.getLastD_cons]
    rw [h3, h4]

/-- Appending the closing pair to the pairwise zip yields exactly the
consecutive index pairs. -/
theorem zip_tail_consecPairs :
    ∀ (rest : List Nat) (i j n : Nat),
      ((i :: j :: rest).zip (j :: rest)) ++ [((j :: rest).getLastD 0, n)]
        = consecPairs (i :: j :: rest) n := by
  intro rest
  induction rest with
  | nil => intro i j n; rfl
  | cons k rest' ih =>
    intro i j n
    show ((i, j) :: (j :: k :: rest').zip (k :: rest')) ++ [((j :: k :: rest').getLastD 0, n)]
      = (i, j) :: consecPairs (j :: k :: rest') n
    rw [List.cons_append]
    congr 1
    rw [List.getLastD_cons, getLastD_irrel k rest' j 0]
    exact ih j k n

/-- `get_groups` over the consecutive pairs computes the slices the
specification describes. -/
theorem get_groups_consecPairs {α : Type} (source : List α) :
    ∀ (l : List Nat), get_groups (consecPairs l source.length) source = slicesOf source l := by
  intro l
  induction l with
  | nil => rfl
  | cons i t ih =>
    cases t with
    | nil =>
      show [(source.drop i).take (source.length - i)] = [source.drop i]
      rw [List.take_of_length_le]
      rw [List.length_drop]
    | cons j rest =>
      show (source.drop i).take (j - i) :: get_groups (consecPairs (j :: rest) source.length) source
        = (source.drop i).take (j - i) :: slicesOf source (j :: rest)
      rw [ih]

/-- The matched indices of `partition_by` are strictly increasing. -/
theorem pairwise_lt_partition_by {α : Type} (p : α → Bool) (source : List α) :
    ((partition_by p source).map Prod.fst).Pairwise (· < ·) := by
  have hsub : ((partition_by p source).map Prod.fst).Sublist (source.enum.map Prod.fst) :=
    List.Sublist.map Prod.fst (List.filter_sublist source.enum)
  rw [List.enum_map_fst] at hsub
  exact List.Pairwise.sublist hsub (List.pairwise_lt_range source.length)

/-- Concatenating the specification's slices recovers the suffix of the
input from the first index, provided the indices increase. -/
theorem flatten_slicesOf {α : Type} (source : List α) :
    ∀ (l : List Nat) (i : Nat), (i :: l).Pairwise (· ≤ ·) →
      (slicesOf source (i :: l)).flatten = source.drop i := by
  intro l
  induction l with
  | nil => intro i _; simp [slicesOf]
  | cons j rest ih =>
    intro i hp
    have hij : i ≤ j := (List.pairwise_cons.1 hp).1 j (by simp)
    have htail : (j :: rest).Pairwise (· ≤ ·) := (List.pairwise_cons.1 hp).2
    show ((source.drop i).take (j - i) :: slicesOf source (j :: rest)).flatten = source.drop i
    rw [List.flatten_cons, ih j htail]
    have hdd : source.drop j = (source.drop i).drop (j - i) := by
      rw [List.drop_drop]
      congr 1
      omega
    rw [hdd, List.take_append_drop]

/-- `group_source_by` with at least two matches computes exactly the
specification's slices over the matched indices. -/
theorem group_source_by_eq_slicesOf {α : Type} (p : α → Bool) (source : List α)
    (h : 2 ≤ (partition_by p source).length) :
    group_source_by p source
      = slicesOf source ((partition_by p source).map Prod.fst) := by
  rcases hms : partition_by p source with _ | ⟨m1, _ | ⟨m2, mrest⟩⟩
  · rw [hms] at h; simp at h
  · rw [hms] at h; simp at h
  · unfold group_source_by
    rw [hms]
    have hpw : get_pairwise_series_indexes (m1 :: m2 :: mrest)
        = (m1.1 :: m2.1 :: mrest.map Prod.fst).zip (m2.1 :: mrest.map Prod.fst) := rfl
    simp only [List.isEmpty_cons, hpw]
    have hzne : ((m1.1 :: m2.1 :: mrest.map Prod.fst).zip (m2.1 :: mrest.map Prod.fst)).isEmpty
        = false := rfl
    rw [hzne]
    simp only [Bool.false_eq_true, if_false, getLastD_snd_zip]
    rw [zip_tail_consecPairs, get_groups_consecPairs]
    rfl

/-- With no matches, or with a single match, `group_source_by` returns
the empty list. -/
theorem group_source_by_small {α : Type} (p : α → Bool) (source : List α) :
    (partition_by p source = [] → group_source_by p source = []) ∧
    (∀ m, partition_by p source = [m] → group_source_by p source = []) := by
  constructor
  · intro hms
    unfold group_source_by
    rw [hms]
    rfl
  · intro m hms
    unfold group_source_by
    rw [hms]
    rfl

/-- The head of the filtered enumeration locates the first satisfying
item: its index is in range, it satisfies the predicate, and it is what
`find?` returns. -/
theorem head_filter_enumFrom {α : Type} (p : α → Bool) :
    ∀ (src : List α) (k i : Nat) (a : α),
      ((List.enumFrom k src).filter (fun ia => p ia.2)).head? = some (i, a) →
      k ≤ i ∧ src.get? (i - k) = some a ∧ p a = true ∧ src.find? p = some a := by
  intro src
  induction src with
  | nil => intro k i a h; simp at h
  | cons b t ih =>
    intro k i a h
    by_cases hp : p b
    · rw [show List.enumFrom k (b :: t) = (k, b) :: List.enumFrom (k + 1) t from rfl,
        List.filter_cons_of_pos (by simpa using hp)] at h
      simp only [List.head?_cons, Option.some.injEq, Prod.mk.injEq] at h
      obtain ⟨hik, hab⟩ := h
      subst hik; subst hab
      exact ⟨Nat.le_refl k, by simp, hp, List.find?_cons_of_pos t hp⟩
    · rw [show List.enumFrom k (b :: t) = (k, b) :: List.enumFrom (k + 1) t from rfl,
        List.filter_cons_of_neg (by simpa using hp)] at h
      obtain ⟨hle, hget, hpa, hfind⟩ := ih (k + 1) i a h
      refine ⟨by omega, ?_, hpa, ?_⟩
      · have : i - k = (i - (k + 1)) + 1 := by omega
        rw [this, List.get?_cons_succ]
        exact hget
      · rw [List.find?_cons_of_neg t hp]
        exact hfind

theorem head?_drop {α : Type} (l : List α) (n : Nat) : (l.drop n).head? = l.get? n := by
  induction n generalizing l with
  | zero => cases l <;> rfl
  | succ n ih =>
    cases l with
    | nil => rfl
    | cons a t => rw [List.drop_succ_cons, List.get?_cons_succ, ih]

/-- Every nonempty output of `group_source_by` starts with a block whose
first item is the first item of the input satisfying the predicate. -/
theorem group_source_by_cons_head {α : Type} (p : α → Bool) (src : List α)
    (x0 : List α) (rest : List (List α))
    (h : group_source_by p src = x0 :: rest) :
    ∃ a, x0.head? = some a ∧ src.find? p = some a := by
  rcases hms : partition_by p src with _ | ⟨m1, _ | ⟨m2, mrest⟩⟩
  · rw [(group_source_by_small p src).1 hms] at h; cases h
  · rw [(group_source_by_small p src).2 m1 hms] at h; cases h
  · have h2 : 2 ≤ (partition_by p src).length := by rw [hms]; simp
    have heq := group_source_by_eq_slicesOf p src h2
    rw [heq, hms] at h
    have hsl : slicesOf src ((m1 :: m2 :: mrest).map Prod.fst)
        = (src.drop m1.1).take (m2.1 - m1.1)
          :: slicesOf src (m2.1 :: mrest.map Prod.fst) := rfl
    rw [hsl] at h
    have hx0 : x0 = (src.drop m1.1).take (m2.1 - m1.1) := (List.cons.injEq _ _ _ _ ▸ h).1.symm
    have hlt : m1.1 < m2.1 := by
      have hpw := pairwise_lt_partition_by p src
      rw [hms] at hpw
      exact (List.pairwise_cons.1 hpw).1 m2.1 (by simp)
    have hHF := head_filter_enumFrom p src 0 m1.1 m1.2
      (by
        show ((List.enumFrom 0 src).filter (fun ia => p ia.2)).head? = some (m1.1, m1.2)
        have : (List.enumFrom 0 src).filter (fun ia => p ia.2) = partition_by p src := rfl
        rw [this, hms, List.head?_cons])
    obtain ⟨-, hget, -, hfind⟩ := hHF
    refine ⟨m1.2, ?_, hfind⟩
    rw [hx0, List.head?_take, if_neg (by omega), head?_drop]
    rw [Nat.sub_zero] at hget
    exact hget

/-- Claim C1: for every input sequence and marker predicate,
`group_source_by` is claimed to return one contiguous sub-sequence per
satisfying item (`slicesOf` over the matched indices), ordered and
non-overlapping, whose concatenation is the suffix of the input from
the first satisfying item, and the empty sequence when no item
satisfies.  This holds as stated only with at least two satisfying
items; with exactly one satisfying item the code also returns the empty
sequence (the amended first clauses below). -/
theorem group_source_by_slices {α : Type} (p : α → Bool) (source : List α) :
    (partition_by p source = [] → group_source_by p source = []) ∧
    (∀ m, partition_by p source = [m] → group_source_by p source = []) ∧
    (2 ≤ (partition_by p source).length →
      group_source_by p source = slicesOf source ((partition_by p source).map Prod.fst) ∧
      (group_source_by p source).flatten
        = source.drop (((partition_by p source).map Prod.fst).headD 0)) := by
  refine ⟨(group_source_by_small p source).1, (group_source_by_small p source).2, fun h => ?_⟩
  have heq := group_source_by_eq_slicesOf p source h
  refine ⟨heq, ?_⟩
  rcases hms : partition_by p source with _ | ⟨m1, ms⟩
  · rw [hms] at h; simp at h
  · have hpw := pairwise_lt_partition_by p source
    rw [hms] at hpw
    have hple : (m1.1 :: ms.map Prod.fst).Pairwise (· ≤ ·) :=
      List.Pairwise.imp (fun hab => Nat.le_of_lt hab) hpw
    rw [heq, hms]
    show (slicesOf source (m1.1 :: ms.map Prod.fst)).flatten
      = source.drop ((m1.1 :: ms.map Prod.fst).headD 0)
    rw [flatten_slicesOf source (ms.map Prod.fst) m1.1 hple]
    rfl

/-- Witness for C1's amended theorem at a concrete two-match input. -/
theorem group_source_by_slices_witness :
    2 ≤ (partition_by (fun s => s == "D") ["D", "x", "D", "y"]).length ∧
    (group_source_by (fun s => s == "D") ["D", "x", "D", "y"]
        = slicesOf ["D", "x", "D", "y"]
            ((partition_by (fun s => s == "D") ["D", "x", "D", "y"]).map Prod.fst) ∧
      (group_source_by (fun s => s == "D") ["D", "x", "D", "y"]).flatten
        = ["D", "x", "D", "y"].drop
            (((partition_by (fun s => s == "D") ["D", "x", "D", "y"]).map Prod.fst).headD 0)) :=
  ⟨by decide, (group_source_by_slices (fun s => s == "D") ["D", "x", "D", "y"]).2.2 (by decide)⟩

/-- Counterexample to C1 as stated: with exactly one satisfying item
the code returns the empty sequence, not the claimed single
sub-sequence running to the end of the input. -/
theorem group_source_by_single_match_counterexample :
    group_source_by (fun s => s == "Monday") ["Monday", "x"] = [] ∧
    (partition_by (fun s => s == "Monday") ["Monday", "x"]).length = 1 ∧
    slicesOf ["Monday", "x"]
        ((partition_by (fun s => s == "Monday") ["Monday", "x"]).map Prod.fst)
      = [["Monday", "x"]] := by decide

/-- Claim C5 (amended): for every day segment, a day whose interval
partitioning yields no block becomes the single rest-day sentinel; a
day yielding blocks is replaced by a synthetic `session` block holding
the first line of the first partitioned block (the first line matching
the sub-header pattern — not the weekday line stripped of its weekday
name) followed by the remaining blocks, the rest of the first block
being discarded. -/
theorem segment_days_blocks (sessions : List (List String)) (i : Nat)
    (h : i < sessions.length) :
    (group_source_by segmentMatch (sessions.getD i []) = [] →
      (segment_days sessions).getD i [] = [["session", "rest day"]]) ∧
    (∀ x0 rest, group_source_by segmentMatch (sessions.getD i []) = x0 :: rest →
      (segment_days sessions).getD i [] = (["session", x0.headD ""] :: rest) ∧
      (sessions.getD i []).find? segmentMatch = some (x0.headD "")) := by
  obtain ⟨x, hx⟩ : ∃ x, sessions.get? i = some x := by
    cases hx : sessions.get? i with
    | none =>
      rw [List.get?_eq_none] at hx
      omega
    | some x => exact ⟨x, rfl⟩
  have hday : sessions.getD i [] = x := by rw [List.getD_eq_get?, hx]; rfl
  have hseg : (segment_days sessions).getD i []
      = (match group_source_by segmentMatch x with
        | [] => [["session", "rest day"]]
        | x0 :: rest => ["session", x0.headD ""] :: rest) := by
    unfold segment_days
    rw [List.getD_eq_get?, List.get?_map, hx]
    rfl
  constructor
  · intro hnil
    rw [hday] at hnil
    rw [hseg, hnil]
  · intro x0 rest hcons
    rw [hday] at hcons
    constructor
    · rw [hseg, hcons]
    · obtain ⟨a, hh, hf⟩ := group_source_by_cons_head segmentMatch x x0 rest hcons
      have hhd : x0.headD "" = a := by rw [List.headD_eq_head?, hh]; rfl
      rw [hday, hhd]
      exact hf

/-- Witness for C5's amended theorem: one day with two sub-header
matches, whose first partitioned block starts at the weekday line
because that line contains "Session". -/
theorem segment_days_blocks_witness :
    (0 < [["Monday (Session One)", "extra", "A.", "sq"]].length) ∧
    ((segment_days [["Monday (Session One)", "extra", "A.", "sq"]]).getD 0 []
        = ["session", "Monday (Session One)"] :: [["A.", "sq"]] ∧
      ["Monday (Session One)", "extra", "A.", "sq"].find? segmentMatch
        = some "Monday (Session One)") :=
  ⟨by decide,
    (segment_days_blocks [["Monday (Session One)", "extra", "A.", "sq"]] 0 (by decide)).2
      ["Monday (Session One)", "extra"] [["A.", "sq"]] (by decide)⟩

/-- Counterexample to C5 as stated: for the day
`["Monday (Session One)", "extra", "A.", "sq"]` the synthetic session
body is the whole matched line `"Monday (Session One)"`, not the
portion `"(Session One)"` after the weekday name, and the first
partitioned block's remaining line `"extra"` is discarded rather than
kept. -/
theorem segment_days_session_body_counterexample :
    segment_days [["Monday (Session One)", "extra", "A.", "sq"]]
      = [[["session", "Monday (Session One)"], ["A.", "sq"]]] ∧
    segment_days [["Monday (Session One)", "extra", "A.", "sq"]]
      ≠ [[["session", "(Session One)"], ["Monday (Session One)", "extra"], ["A.", "sq"]]] := by
  decide

/-! ### Claims C3 and C4: the date-resolution chain -/

/-- Claim C3 (amended): the extractor chooses one text source — the
slug when present and nonempty, otherwise the title — so a present
nonempty slug makes the title irrelevant even when the slug contains no
valid date pattern; and the downstream resolution uses the extracted
start when present, else the publish date, else the current date. -/
theorem date_resolution_priority (slug title : Option String)
    (post_date : Option Int) (today : Int) :
    (∀ s : String, slug = some s → s ≠ "" →
      extract_date_range_from_slug_or_title slug title
        = extract_date_range_from_slug_or_title slug none) ∧
    (∀ ds, (extract_date_range_from_slug_or_title slug title).1 = some ds →
      resolve_theday slug title post_date today = ds) ∧
    ((extract_date_range_from_slug_or_title slug title).1 = none →
      resolve_theday slug title post_date today = post_date.getD today) := by
  refine ⟨?_, ?_, ?_⟩
  · intro s hs hne
    subst hs
    have hb : (s == "") = false := beq_eq_false_iff_ne.mpr hne
    have hsrc : ∀ t, sourceText (some s) t = some s.data := by
      intro t
      show (if (s == "") = true then titleText t else some s.data) = some s.data
      rw [hb]
      simp
    unfold extract_date_range_from_slug_or_title
    rw [hsrc title, hsrc none]
  · intro ds h
    unfold resolve_theday
    rw [h]
  · intro h
    unfold resolve_theday
    rw [h]
    cases post_date <;> rfl

/-- Witness for C3's amended theorem: a slug-borne date range drives
the resolution. -/
theorem date_resolution_priority_witness :
    ((extract_date_range_from_slug_or_title (some "april-1-7-2024") none).1
        = some (days_from_civil 2024 4 1)) ∧
    resolve_theday (some "april-1-7-2024") none none 0 = days_from_civil 2024 4 1 :=
  ⟨by decide,
    (date_resolution_priority (some "april-1-7-2024") none none 0).2.1
      (days_from_civil 2024 4 1) (by decide)⟩

/-- Counterexample to C3 as stated: a present slug with no valid date
pattern does not fall through to a title that does carry one — the
extraction yields `(None, None)` even though extracting from the title
alone succeeds. -/
theorem title_ignored_when_slug_present_counterexample :
    extract_date_range_from_slug_or_title (some "some-random-slug-without-dates")
        (some "April 1-7, 2024 &#8211; 5 Day Weightlifting Program") = (none, none) ∧
    extract_date_range_from_slug_or_title none
        (some "April 1-7, 2024 &#8211; 5 Day Weightlifting Program")
      = (some (days_from_civil 2024 4 1), some (days_from_civil 2024 4 7)) := by
  decide

theorem dateFromYMD_eq_some {y m d : Nat} {z : Int} (h : dateFromYMD y m d = some z) :
    z = days_from_civil_base y m + (d : Int) := by
  unfold dateFromYMD at h
  split at h
  · cases h
    rfl
  · cases h

theorem extract_of_sourceText_none {slug title : Option String}
    (h : sourceText slug title = none) :
    extract_date_range_from_slug_or_title slug title = (none, none) := by
  unfold extract_date_range_from_slug_or_title
  rw [h]

theorem extract_of_pattern_none {slug title : Option String} {cs : List Char}
    (h : sourceText slug title = some cs) (hfp : findDatePattern cs = none) :
    extract_date_range_from_slug_or_title slug title = (none, none) := by
  unfold extract_date_range_from_slug_or_title
  rw [h]
  show (match findDatePattern cs with
    | none => ((none : Option Int), (none : Option Int))
    | some g => dateRangeOfMatch g) = (none, none)
  rw [hfp]

theorem extract_of_pattern_some {slug title : Option String} {cs : List Char}
    {g : List Char × List Char × List Char × List Char}
    (h : sourceText slug title = some cs) (hfp : findDatePattern cs = some g) :
    extract_date_range_from_slug_or_title slug title = dateRangeOfMatch g := by
  unfold extract_date_range_from_slug_or_title
  rw [h]
  show (match findDatePattern cs with
    | none => ((none : Option Int), (none : Option Int))
    | some g => dateRangeOfMatch g) = dateRangeOfMatch g
  rw [hfp]

theorem dateRangeOfMatch_of_month {g : List Char × List Char × List Char × List Char}
    {month : Nat}
    (hmo : (month_names.find? (fun e => e.1 == g.1.map Char.toLower)).map Prod.snd
      = some month) :
    dateRangeOfMatch g
      = (match dateFromYMD (digitsToNat g.2.2.2) month (digitsToNat g.2.1),
              dateFromYMD (digitsToNat g.2.2.2) month (digitsToNat g.2.2.1) with
        | some s, some e => (some s, some e)
        | _, _ => (none, none)) := by
  unfold dateRangeOfMatch
  rw [hmo]

/-- Claim C4 (amended): a present extracted range always consists of
two dates built from the same matched year and month, so `start ≤ end`
holds exactly when the first matched day number is at most the second
— the invariant `start ≤ end` is not enforced in general. -/
theorem date_range_same_month (slug title : Option String) (s e : Int)
    (h : extract_date_range_from_slug_or_title slug title = (some s, some e)) :
    ∃ y m d1 d2, dateFromYMD y m d1 = some s ∧ dateFromYMD y m d2 = some e ∧
      (s ≤ e ↔ d1 ≤ d2) := by
  cases hst : sourceText slug title with
  | none => rw [extract_of_sourceText_none hst] at h; simp at h
  | some cs =>
    cases hfp : findDatePattern cs with
    | none => rw [extract_of_pattern_none hst hfp] at h; simp at h
    | some g =>
      rw [extract_of_pattern_some hst hfp] at h
      cases hmo : (month_names.find? (fun e => e.1 == g.1.map Char.toLower)).map Prod.snd with
      | none =>
        unfold dateRangeOfMatch at h
        rw [hmo] at h
        simp at h
      | some month =>
        rw [dateRangeOfMatch_of_month hmo] at h
        cases hd1 : dateFromYMD (digitsToNat g.2.2.2) month (digitsToNat g.2.1) with
        | none => rw [hd1] at h; simp at h
        | some s' =>
          cases hd2 : dateFromYMD (digitsToNat g.2.2.2) month (digitsToNat g.2.2.1) with
          | none => rw [hd1, hd2] at h; simp at h
          | some e' =>
            rw [hd1, hd2] at h
            simp only [Prod.mk.injEq, Option.some.injEq] at h
            obtain ⟨hs2, he2⟩ := h
            subst hs2; subst he2
            refine ⟨digitsToNat g.2.2.2, month, digitsToNat g.2.1, digitsToNat g.2.2.1,
              hd1, hd2, ?_⟩
            rw [dateFromYMD_eq_some hd1, dateFromYMD_eq_some hd2]
            constructor
            · intro hle
              exact_mod_cast Int.le_of_add_le_add_left hle
            · intro hle
              apply Int.add_le_add_left
              exact_mod_cast hle

/-- Witness for C4's amended theorem at a reversed-day slug. -/
theorem date_range_same_month_witness :
    (extract_date_range_from_slug_or_title (some "april-7-1-2024") none
        = (some (days_from_civil 2024 4 7), some (days_from_civil 2024 4 1))) ∧
    (∃ y m d1 d2, dateFromYMD y m d1 = some (days_from_civil 2024 4 7) ∧
      dateFromYMD y m d2 = some (days_from_civil 2024 4 1) ∧
      (days_from_civil 2024 4 7 ≤ days_from_civil 2024 4 1 ↔ d1 ≤ d2)) :=
  ⟨by decide,
    date_range_same_month (some "april-7-1-2024") none _ _ (by decide)⟩

/-- Counterexample to C4 as stated: the slug `april-7-1-2024` yields a
present range whose start (April 7) is after its end (April 1). -/
theorem date_range_order_counterexample :
    extract_date_range_from_slug_or_title (some "april-7-1-2024") none
      = (some (days_from_civil 2024 4 7), some (days_from_civil 2024 4 1)) ∧
    ¬(days_from_civil 2024 4 7 ≤ days_from_civil 2024 4 1) := by
  decide

/-- On a dict with distinct keys, the last matching entry is the only
matching entry, so searching the reversed dict agrees with `dictGet`. -/
theorem find?_reverse_of_nodup (m : Dict) (k : String)
    (h : (m.map Prod.fst).Nodup) :
    (m.reverse.find? (fun kv => kv.1 == k)).map Prod.snd = dictGet m k := by
  induction m with
  | nil => simp [dictGet]
  | cons a t ih =>
    rw [List.map_cons, List.nodup_cons] at h
    rw [List.reverse_cons, List.find?_append]
    by_cases hak : a.1 == k
    · have hak' : a.1 = k := by simpa using hak
      have hnone : t.reverse.find? (fun kv => kv.1 == k) = none := by
        rw [List.find?_eq_none]
        intro kv hkv hbeq
        have hkk : kv.1 = a.1 := by
          have : kv.1 = k := by simpa using hbeq
          rw [this, hak']
        exact h.1 (List.mem_map.2 ⟨kv, List.mem_reverse.1 hkv, hkk⟩)
      simp [hnone, List.find?, hak, dictGet_cons]
    · have hnone2 : List.find? (fun kv => kv.1 == k) [a] = none := by
        simp [List.find?, hak]
      rw [hnone2, Option.or_none, ih h.2, dictGet_cons, if_neg hak]

/-! ### Claims C2 and C10: the per-day record builder -/

theorem filterMap_always_some {α β : Type} (f : α → β) (l : List α) :
    l.filterMap (fun a => some (f a)) = l.map f := by
  induction l with
  | nil => rfl
  | cons a t ih => rw [List.filterMap_cons, List.map_cons, ih]

theorem filterMap_some_self {α : Type} (l : List α) :
    l.filterMap (fun a => some a) = l := by
  induction l with
  | nil => rfl
  | cons a t ih => rw [List.filterMap_cons, ih]

/-- The `i`-th assigned date (for `i ≤ N`) is the resolved week start
plus `i` days. -/
theorem assignedDates_get (ev : SessionsEvent) (today : Int) (i : Nat)
    (h : i < ev.segmented_sessions.length + 1) :
    (assignedDates ev today).get? i
      = some (resolve_theday ev.slug ev.title ev.post_date today
          - isoweekday (resolve_theday ev.slug ev.title ev.post_date today) + (i : Int)) := by
  unfold assignedDates
  rw [List.get?_map, List.get?_range h]
  rfl

/-- The `i`-th session record (for `i < N`) merges the `i`-th day's
dict onto a `date` entry holding the week start plus `i + 1` days. -/
theorem sessionRecords_get (ev : SessionsEvent) (today : Int) (i : Nat)
    (h : i < ev.segmented_sessions.length) :
    (sessionRecords ev today).get? i
      = some (recordOfSession (buildSessionDict (ev.segmented_sessions.getD i []))
          (dateToStr (resolve_theday ev.slug ev.title ev.post_date today
            - isoweekday (resolve_theday ev.slug ev.title ev.post_date today)
            + ((i : Int) + 1)))) := by
  have hdates_tail : (assignedDates ev today).tail.get? i
      = some (resolve_theday ev.slug ev.title ev.post_date today
          - isoweekday (resolve_theday ev.slug ev.title ev.post_date today) + ((i : Int) + 1)) := by
    rw [← List.drop_one, List.get?_drop, assignedDates_get ev today (1 + i) (by omega)]
    congr 1
    omega
  have hsd : (sessionDicts ev today).get? i
      = some (buildSessionDict (ev.segmented_sessions.getD i [])) := by
    unfold sessionDicts
    rw [List.get?_map, List.enum_get?, hdates_tail]
    rfl
  have hgd : (assignedDates ev today).getD (i + 1) 0
      = resolve_theday ev.slug ev.title ev.post_date today
        - isoweekday (resolve_theday ev.slug ev.title ev.post_date today) + ((i : Int) + 1) := by
    rw [List.getD_eq_get?, assignedDates_get ev today (i + 1) (by omega)]
    show (resolve_theday ev.slug ev.title ev.post_date today
      - isoweekday (resolve_theday ev.slug ev.title ev.post_date today) + ((i + 1 : Nat) : Int)) = _
    congr 1
  unfold sessionRecords
  rw [List.get?_map, List.enum_get?, hsd]
  show some (recordOfSession (buildSessionDict (ev.segmented_sessions.getD i []))
      (dateToStr ((assignedDates ev today).getD (i + 1) 0))) = _
  rw [hgd]

/-- With at least one segmented day the record builder returns its
records (the empty-batch `ValueError` path is not taken). -/
theorem sessions_to_json_some (ev : SessionsEvent) (today : Int)
    (h : 0 < ev.segmented_sessions.length) :
    sessions_to_json_records_by_day ev today = some (sessionRecords ev today) := by
  have hlen : (sessionRecords ev today).length = ev.segmented_sessions.length := by
    unfold sessionRecords sessionDicts assignedDates
    simp
  have hne : (sessionRecords ev today).isEmpty = false := by
    cases hr : sessionRecords ev today with
    | nil => rw [hr] at hlen; simp at hlen; omega
    | cons a t => rfl
  unfold sessions_to_json_records_by_day
  cases (extract_date_range_from_slug_or_title ev.slug ev.title).1 with
  | none => rfl
  | some ds =>
    cases (extract_date_range_from_slug_or_title ev.slug ev.title).2 with
    | none => rfl
    | some de => rw [hne]; rfl

/-- Looking a key up in a built record: the last block entry with that
key, else the prepended `date` entry. -/
theorem dictGet_recordOfSession (session : Dict) (dstr k : String) :
    dictGet (recordOfSession session dstr) k
      = match session.reverse.find? (fun kv => kv.1 == k) with
        | some kv => some kv.2
        | none => dictGet [("date", dstr)] k := by
  unfold recordOfSession
  rw [dictGet_foldl (fun kv => some kv) (fun m kv => dictInsert m kv.1 kv.2)
    (fun m a => rfl) session [("date", dstr)] k]
  rw [filterMap_some_self session.reverse]

/-- Looking a label up in a day's session dict: the last block carrying
that label, space-joined. -/
theorem dictGet_buildSessionDict (blocks : List (List String)) (k : String) :
    dictGet (buildSessionDict blocks) k
      = (blocks.reverse.find? (fun b => b.headD "" == k)).map
          (fun b => joinSpace b.tail) := by
  unfold buildSessionDict
  rw [dictGet_foldl (fun b => some (b.headD "", joinSpace b.tail))
    (fun m session => dictInsert m (session.headD "") (joinSpace session.tail))
    (fun m a => rfl) blocks [] k]
  rw [filterMap_always_some (fun b => (b.headD "", joinSpace b.tail)) blocks.reverse]
  rw [List.find?_map]
  have hpred : ((fun kv : String × String => kv.1 == k)
      ∘ (fun b : List String => (b.headD "", joinSpace b.tail)))
      = (fun b => b.headD "" == k) := rfl
  rw [hpred]
  cases blocks.reverse.find? (fun b => b.headD "" == k) with
  | none => rfl
  | some b0 => rfl

/-- Claim C2 (amended): when the extractor resolves a start date, the
`i`-th segmented day's record carries the date
`week_start + (i + 1)` days where `week_start = start - isoweekday
start` — consecutive dates that begin at the Monday of `start`'s week,
which equals `start` itself only when `start` is a Monday. -/
theorem sessions_record_dates (ev : SessionsEvent) (today ds : Int) (i : Nat)
    (h1 : (extract_date_range_from_slug_or_title ev.slug ev.title).1 = some ds)
    (h2 : i < ev.segmented_sessions.length)
    (h3 : ∀ b ∈ ev.segmented_sessions.getD i [], b.headD "" ≠ "date") :
    ∃ out, sessions_to_json_records_by_day ev today = some out ∧
      dictGet (out.getD i []) "date"
        = some (dateToStr (ds - isoweekday ds + ((i : Int) + 1))) := by
  have hres : resolve_theday ev.slug ev.title ev.post_date today = ds := by
    unfold resolve_theday
    rw [h1]
  refine ⟨sessionRecords ev today, sessions_to_json_some ev today (by omega), ?_⟩
  have hrec := sessionRecords_get ev today i h2
  rw [hres] at hrec
  rw [List.getD_eq_get?, hrec]
  show dictGet (recordOfSession (buildSessionDict (ev.segmented_sessions.getD i []))
    (dateToStr (ds - isoweekday ds + ((i : Int) + 1)))) "date" = _
  rw [dictGet_recordOfSession]
  have hnone : (buildSessionDict (ev.segmented_sessions.getD i [])).reverse.find?
      (fun kv => kv.1 == "date") = none := by
    rw [List.find?_eq_none]
    intro kv hkv hbeq
    have hkey : kv.1 ∈ (buildSessionDict (ev.segmented_sessions.getD i [])).map Prod.fst :=
      List.mem_map.2 ⟨kv, List.mem_reverse.1 hkv, rfl⟩
    have := mem_keys_foldl (fun (b : List String) => some (b.headD "", joinSpace b.tail))
      (fun (m : Dict) (session : List String) =>
        dictInsert m (session.headD "") (joinSpace session.tail))
      (fun m a => rfl) (ev.segmented_sessions.getD i []) [] kv.1 hkey
    rcases this with hinit | ⟨b, hb, v, hgv⟩
    · simp at hinit
    · have hhd : b.headD "" = kv.1 := by
        have := congrArg Prod.fst (Option.some.injEq _ _ ▸ hgv)
        simpa using this
      have : kv.1 = "date" := by simpa using hbeq
      exact h3 b hb (hhd.trans this)
  rw [hnone]
  simp [dictGet, List.find?]

/-- Witness for C2's amended theorem: slug `april-1-7-2024`, one
segmented day, record date `week_start + 1` = 2024-04-01. -/
theorem sessions_record_dates_witness :
    ((extract_date_range_from_slug_or_title (some "april-1-7-2024") none).1
        = some (days_from_civil 2024 4 1)) ∧
    (0 < 1) ∧
    (∃ out, sessions_to_json_records_by_day
        ⟨[[["session", "x"]]], some "april-1-7-2024", none, none⟩ 0 = some out ∧
      dictGet (out.getD 0 []) "date"
        = some (dateToStr (days_from_civil 2024 4 1
            - isoweekday (days_from_civil 2024 4 1) + ((0 : Int) + 1)))) :=
  ⟨by decide, by decide,
    sessions_record_dates ⟨[[["session", "x"]]], some "april-1-7-2024", none, none⟩ 0
      (days_from_civil 2024 4 1) 0 (by decide) (by decide) (by decide)⟩

/-- Counterexample to C2 as stated: slug `april-2-7-2024` resolves
start = Tuesday 2024-04-02, but the single record is dated 2024-04-01 —
the assigned dates do not begin at `start` when `start` is not a
Monday. -/
theorem sessions_dates_not_from_start_counterexample :
    (extract_date_range_from_slug_or_title (some "april-2-7-2024") none).1
      = some (days_from_civil 2024 4 2) ∧
    sessions_to_json_records_by_day
        ⟨[[["session", "x"]]], some "april-2-7-2024", none, none⟩ 0
      = some [[("date", "2024-04-01"), ("session", "x")]] ∧
    dateToStr (days_from_civil 2024 4 2) = "2024-04-02" := by
  decide

/-- Claim C10: when a day carries two or more blocks with the same
label, the record maps that label to the space-joined body of the last
such block only. -/
theorem duplicate_labels_last_wins (ev : SessionsEvent) (today : Int) (i : Nat)
    (label : String)
    (h1 : i < ev.segmented_sessions.length)
    (h2 : 2 ≤ ((ev.segmented_sessions.getD i []).filter
        (fun b => b.headD "" == label)).length) :
    ∃ out, sessions_to_json_records_by_day ev today = some out ∧
      dictGet (out.getD i []) label
        = ((ev.segmented_sessions.getD i []).reverse.find?
            (fun b => b.headD "" == label)).map (fun b => joinSpace b.tail) := by
  refine ⟨sessionRecords ev today, sessions_to_json_some ev today (by omega), ?_⟩
  rw [List.getD_eq_get?, sessionRecords_get ev today i h1]
  show dictGet (recordOfSession (buildSessionDict (ev.segmented_sessions.getD i [])) _) label = _
  rw [dictGet_recordOfSession]
  have hfind : ∃ b0, (ev.segmented_sessions.getD i []).reverse.find?
      (fun b => b.headD "" == label) = some b0 := by
    have hpos : 0 < ((ev.segmented_sessions.getD i []).filter
        (fun b => b.headD "" == label)).length := by omega
    rw [List.length_pos] at hpos
    obtain ⟨b0', hb0'⟩ := List.exists_mem_of_ne_nil _ hpos
    have hb0 := List.mem_filter.1 hb0'
    have hsome : ((ev.segmented_sessions.getD i []).reverse.find?
        (fun b => b.headD "" == label)).isSome := by
      rw [List.find?_isSome]
      exact ⟨b0', List.mem_reverse.2 hb0.1, hb0.2⟩
    exact Option.isSome_iff_exists.1 hsome
  obtain ⟨b0, hb0⟩ := hfind
  have hnodup : ((buildSessionDict (ev.segmented_sessions.getD i [])).map Prod.fst).Nodup := by
    unfold buildSessionDict
    exact nodup_keys_foldl (fun (b : List String) => some (b.headD "", joinSpace b.tail))
      (fun (m : Dict) (session : List String) =>
        dictInsert m (session.headD "") (joinSpace session.tail))
      (fun m a => rfl) (ev.segmented_sessions.getD i []) [] (by simp)
  have hsess : dictGet (buildSessionDict (ev.segmented_sessions.getD i [])) label
      = some (joinSpace b0.tail) := by
    rw [dictGet_buildSessionDict, hb0]
    rfl
  have hrev := find?_reverse_of_nodup (buildSessionDict (ev.segmented_sessions.getD i []))
    label hnodup
  rw [hsess] at hrev
  cases hfr : (buildSessionDict (ev.segmented_sessions.getD i [])).reverse.find?
      (fun kv => kv.1 == label) with
  | none => rw [hfr] at hrev; cases hrev
  | some kv =>
    rw [hfr] at hrev
    have hkv2 : kv.2 = joinSpace b0.tail := by
      simpa using hrev
    rw [hb0]
    show some kv.2 = some (joinSpace b0.tail)
    rw [hkv2]

/-- Witness for C10 at a day with two `A.` blocks: the record keeps
only the second block's body. -/
theorem duplicate_labels_last_wins_witness :
    (0 < 1) ∧
    (2 ≤ ([[["A.", "first"], ["A.", "second"]]].getD 0 (α := List (List String)) []
        |>.filter (fun b => b.headD "" == "A.")).length) ∧
    (∃ out, sessions_to_json_records_by_day
        ⟨[[["A.", "first"], ["A.", "second"]]], some "april-1-7-2024", none, none⟩ 0
      = some out ∧
      dictGet (out.getD 0 []) "A."
        = (([[["A.", "first"], ["A.", "second"]]].getD 0 (α := List (List String)) []
            |>.reverse.find? (fun b => b.headD "" == "A.")).map
              (fun b => joinSpace b.tail))) :=
  ⟨by decide, by decide,
    duplicate_labels_last_wins
      ⟨[[["A.", "first"], ["A.", "second"]]], some "april-1-7-2024", none, none⟩ 0 0 "A."
      (by decide) (by decide)⟩

/-! ### Claim C8: the idempotency check fails open -/

/-- Claim C8: `IdempotencyService.check` never raises (it is total
here, every query error being mapped to a result): it returns `true`
exactly when the table is configured (present and nonempty) and the
store query succeeds with an item, and it returns `false` whenever the
table is unconfigured or the query errors. -/
theorem check_fail_open (table_name : Option String)
    (get_item : String → Except String (Option IdempotencyRecord))
    (key : String) :
    (IdempotencyService.check table_name get_item key = true ↔
      ∃ t, table_name = some t ∧ t ≠ "" ∧ ∃ r, get_item key = .ok (some r)) ∧
    (table_name = none → IdempotencyService.check table_name get_item key = false) ∧
    (table_name = some "" → IdempotencyService.check table_name get_item key = false) ∧
    (∀ e, get_item key = .error e →
      IdempotencyService.check table_name get_item key = false) := by
  have hsome : ∀ t : String, IdempotencyService.check (some t) get_item key
      = (if (t == "") = true then false
        else match get_item key with
          | .error _ => false
          | .ok none => false
          | .ok (some _) => true) := fun t => rfl
  cases table_name with
  | none =>
    refine ⟨?_, ?_, ?_, ?_⟩
    · constructor
      · intro h; cases h
      · rintro ⟨t, ht, -⟩; cases ht
    · intro _; rfl
    · intro h; cases h
    · intro e _; rfl
  | some t =>
    rw [hsome t]
    by_cases ht : (t == "") = true
    · have ht' : t = "" := by simpa using ht
      rw [if_pos ht]
      refine ⟨?_, ?_, ?_, ?_⟩
      · constructor
        · intro h; cases h
        · rintro ⟨t', ht2, hne, -⟩
          injection ht2 with ht3
          exact absurd (by rw [← ht3, ht']) hne
      · intro h; cases h
      · intro _; rfl
      · intro e _; rfl
    · have ht' : t ≠ "" := by simpa using ht
      rw [if_neg ht]
      cases hg : get_item key with
      | error e =>
        refine ⟨?_, ?_, ?_, ?_⟩
        · constructor
          · intro h; cases h
          · rintro ⟨t', -, -, r, hr⟩; cases hr
        · intro h; cases h
        · intro h
          injection h with h2
          exact absurd h2 ht'
        · intro e' _; rfl
      | ok item =>
        cases item with
        | none =>
          refine ⟨?_, ?_, ?_, ?_⟩
          · constructor
            · intro h; cases h
            · rintro ⟨t', -, -, r, hr⟩; cases hr
          · intro h; cases h
          · intro h
            injection h with h2
            exact absurd h2 ht'
          · intro e' he; cases he
        | some r =>
          refine ⟨?_, ?_, ?_, ?_⟩
          · constructor
            · intro _; exact ⟨t, rfl, ht', r, rfl⟩
            · intro _; rfl
          · intro h; cases h
          · intro h
            injection h with h2
            exact absurd h2 ht'
          · intro e' he; cases he

/-- Witness for C8 at a configured table with a stored item, applying
the theorem's success direction. -/
theorem check_fail_open_witness :
    (∃ t, (some "tbl" : Option String) = some t ∧ t ≠ "" ∧
      ∃ r, (fun (_ : String) =>
        (Except.ok (some ⟨"k", 0, "now"⟩) :
          Except String (Option IdempotencyRecord))) "k" = .ok (some r)) ∧
    IdempotencyService.check (some "tbl")
      (fun _ => .ok (some ⟨"k", 0, "now"⟩)) "k" = true :=
  ⟨⟨"tbl", rfl, by decide, ⟨"k", 0, "now"⟩, rfl⟩,
    (check_fail_open (some "tbl") (fun _ => .ok (some ⟨"k", 0, "now"⟩)) "k").1.mpr
      ⟨"tbl", rfl, by decide, ⟨"k", 0, "now"⟩, rfl⟩⟩

/-! ### Claim C9: the no-dates validation error -/

theorem collect_dates_cons_none {rec : Dict} {rest : List Dict}
    (hd : dictGet rec "date" = none) :
    collect_dates (rec :: rest) = collect_dates rest := by
  have he : collect_dates (rec :: rest)
      = (match dictGet rec "date" with
        | none => collect_dates rest
        | some ds =>
          match parse_iso ds with
          | none => .error (.date_parse_error ds)
          | some ymd =>
            match collect_dates rest with
            | .error e => .error e
            | .ok l => .ok (ymd :: l)) := rfl
  rw [he, hd]

theorem collect_dates_cons_some {rec : Dict} {rest : List Dict} {ds : String}
    (hd : dictGet rec "date" = some ds) :
    collect_dates (rec :: rest)
      = (match parse_iso ds with
        | none => .error (.date_parse_error ds)
        | some ymd =>
          match collect_dates rest with
          | .error e => .error e
          | .ok l => .ok (ymd :: l)) := by
  have he : collect_dates (rec :: rest)
      = (match dictGet rec "date" with
        | none => collect_dates rest
        | some ds =>
          match parse_iso ds with
          | none => .error (.date_parse_error ds)
          | some ymd =>
            match collect_dates rest with
            | .error e => .error e
            | .ok l => .ok (ymd :: l)) := rfl
  rw [he, hd]

theorem collect_dates_ne_no_dates (records : List Dict) :
    collect_dates records ≠ .error .no_dates := by
  induction records with
  | nil => intro h; cases h
  | cons rec rest ih =>
    intro h
    cases hd : dictGet rec "date" with
    | none =>
      rw [collect_dates_cons_none hd] at h
      exact ih h
    | some ds =>
      rw [collect_dates_cons_some hd] at h
      cases hp : parse_iso ds with
      | none => rw [hp] at h; cases h
      | some ymd =>
        rw [hp] at h
        cases hc : collect_dates rest with
        | error e =>
          rw [hc] at h
          injection h with h2
          rw [h2] at hc
          exact ih hc
        | ok l => rw [hc] at h; cases h

theorem collect_dates_ok_nil_iff (records : List Dict) :
    collect_dates records = .ok [] ↔ ∀ rec ∈ records, dictGet rec "date" = none := by
  induction records with
  | nil => simp [collect_dates]
  | cons rec rest ih =>
    cases hd : dictGet rec "date" with
    | none =>
      rw [collect_dates_cons_none hd]
      constructor
      · intro h r hr
        rcases List.mem_cons.1 hr with hr | hr
        · rw [hr]; exact hd
        · exact (ih.1 h) r hr
      · intro h
        exact ih.2 (fun r hr => h r (List.mem_cons_of_mem rec hr))
    | some ds =>
      rw [collect_dates_cons_some hd]
      constructor
      · intro h
        cases hp : parse_iso ds with
        | none => rw [hp] at h; cases h
        | some ymd =>
          rw [hp] at h
          cases hc : collect_dates rest with
          | error e => rw [hc] at h; cases h
          | ok l => rw [hc] at h; cases h
      · intro h
        have := h rec (List.mem_cons_self rec rest)
        rw [hd] at this
        cases this

/-- Claim C9: the persistence validation raises the no-dates error
exactly when no record in the batch carries a `date` field; with at
least one dated record that error cannot occur. -/
theorem save_sessions_no_dates_iff (records : List Dict) :
    (save_sessions_to_bucket records = .error .no_dates ↔
      ∀ rec ∈ records, dictGet rec "date" = none) ∧
    (∀ rec ∈ records, ∀ ds, dictGet rec "date" = some ds →
      save_sessions_to_bucket records ≠ .error .no_dates) := by
  have hmain : save_sessions_to_bucket records = .error .no_dates ↔
      ∀ rec ∈ records, dictGet rec "date" = none := by
    unfold save_sessions_to_bucket
    cases hc : collect_dates records with
    | error e =>
      constructor
      · intro h
        injection h with h2
        exact absurd (hc.trans (h2 ▸ rfl)) (collect_dates_ne_no_dates records)
      · intro h
        exact absurd (hc ▸ (collect_dates_ok_nil_iff records).2 h) (by simp)
    | ok dates =>
      cases dates with
      | nil =>
        simp only [List.isEmpty_nil, if_true]
        constructor
        · intro _
          exact (collect_dates_ok_nil_iff records).1 hc
        · intro _; trivial
      | cons d ds =>
        simp only [List.isEmpty_cons, Bool.false_eq_true, if_false]
        constructor
        · intro h; cases h
        · intro h
          have := (collect_dates_ok_nil_iff records).2 h
          rw [hc] at this
          cases this
  refine ⟨hmain, ?_⟩
  intro rec hrec ds hds h
  have := (hmain.1 h) rec hrec
  rw [hds] at this
  cases this

/-- Witness for C9: a batch with no dated record raises the no-dates
error. -/
theorem save_sessions_no_dates_iff_witness :
    (∀ rec ∈ ([[("session", "x")]] : List Dict), dictGet rec "date" = none) ∧
    save_sessions_to_bucket [[("session", "x")]] = .error .no_dates :=
  ⟨by decide,
    (save_sessions_no_dates_iff [[("session", "x")]]).1.mpr (by decide)⟩

/-! ### Claim C7: determinism and injectivity of `generate_key` -/

theorem append_colon_inj (a : List Char) :
    ∀ (b x y : List Char), ':' ∉ a → ':' ∉ b →
      a ++ ':' :: x = b ++ ':' :: y → a = b ∧ x = y := by
  induction a with
  | nil =>
    intro b x y _ hb h
    cases b with
    | nil => simpa using h
    | cons d b' =>
      simp only [List.nil_append, List.cons_append, List.cons.injEq] at h
      exact absurd (h.1 ▸ List.mem_cons_self d b') (by
        intro hmem
        exact hb (h.1 ▸ hmem))
  | cons c a' ih =>
    intro b x y ha hb h
    cases b with
    | nil =>
      simp only [List.cons_append, List.nil_append, List.cons.injEq] at h
      exact absurd (h.1 ▸ List.mem_cons_self c a') (by
        intro hmem
        exact ha (h.1 ▸ hmem))
    | cons d b' =>
      simp only [List.cons_append, List.cons.injEq] at h
      have ha' : ':' ∉ a' := fun hm => ha (List.mem_cons_of_mem c hm)
      have hb' : ':' ∉ b' := fun hm => hb (List.mem_cons_of_mem d hm)
      obtain ⟨hab, hxy⟩ := ih b' x y ha' hb' h.2
      exact ⟨by rw [h.1, hab], hxy⟩

/-- Claim C7 (amended): `generate_key` is a pure function, so equal
argument pairs give equal keys; and as long as the operation names are
colon-free, distinct pairs give distinct pre-hash strings
`"{operation}:{identifier}"`.  Without that restriction distinct pairs
can collide (see the counterexample), and distinctness of the SHA-256
digests themselves additionally assumes the hash is collision-free on
the inputs used. -/
theorem generate_key_deterministic_injective (op1 id1 op2 id2 : String)
    (h1 : ':' ∉ op1.data) (h2 : ':' ∉ op2.data) :
    (keyString op1 id1 = keyString op2 id2 ↔ op1 = op2 ∧ id1 = id2) ∧
    (op1 = op2 → id1 = id2 → generate_key op1 id1 = generate_key op2 id2) := by
  constructor
  · constructor
    · intro h
      have hd : (keyString op1 id1).data = (keyString op2 id2).data :=
        congrArg String.data h
      unfold keyString at hd
      rw [String.data_append, String.data_append, String.data_append,
        String.data_append] at hd
      have hcolon : (":" : String).data = [':'] := rfl
      rw [hcolon] at hd
      rw [List.append_assoc, List.append_assoc] at hd
      have hshape : op1.data ++ ':' :: id1.data = op2.data ++ ':' :: id2.data := by
        simpa using hd
      obtain ⟨hop, hid⟩ := append_colon_inj op1.data op2.data id1.data id2.data h1 h2 hshape
      exact ⟨String.ext hop, String.ext hid⟩
    · rintro ⟨rfl, rfl⟩
      rfl
  · rintro rfl rfl
    rfl

/-- Witness for C7's amended theorem at colon-free operation names. -/
theorem generate_key_deterministic_injective_witness :
    (':' ∉ ("save_sessions" : String).data) ∧ (':' ∉ ("dump_post" : String).data) ∧
    ((keyString "save_sessions" "p1" = keyString "dump_post" "p2" ↔
        ("save_sessions" : String) = "dump_post" ∧ ("p1" : String) = "p2") ∧
      (("save_sessions" : String) = "dump_post" → ("p1" : String) = "p2" →
        generate_key "save_sessions" "p1" = generate_key "dump_post" "p2")) :=
  ⟨by decide, by decide,
    generate_key_deterministic_injective "save_sessions" "p1" "dump_post" "p2"
      (by decide) (by decide)⟩

/-- Counterexample to C7 as stated: the pairs `("a", "b:c")` and
`("a:b", "c")` differ in both components yet produce the same pre-hash
string `"a:b:c"` and hence the same key. -/
theorem generate_key_collision_counterexample :
    generate_key "a" "b:c" = generate_key "a:b" "c" ∧ ("a" : String) ≠ "a:b" := by
  constructor
  · unfold generate_key
    rw [show keyString "a" "b:c" = keyString "a:b" "c" from by decide]
  · decide

/-! ### Claim C6: the record normalizer -/

/-- The per-entry action of the rename loop in `clean_record_fields`,
as a conditional key-value producer. -/
def gClean (kv : String × String) : Option (String × String) :=
  let nk := renameKey kv.1
  if nk == "s" || nk == "r" then none else some (nk, kv.2)

theorem clean_record_fields_hf (m : Dict) (kv : String × String) :
    (let nk := renameKey kv.1
     if nk == "s" || nk == "r" then m else dictInsert m nk kv.2)
      = (match gClean kv with
        | some kv2 => dictInsert m kv2.1 kv2.2
        | none => m) := by
  unfold gClean
  by_cases h : (renameKey kv.1 == "s" || renameKey kv.1 == "r") = true <;> simp [h]

/-- A key that is neither a mapping key nor a mapping value is a fixed
point of the rename, and nothing else renames to it. -/
theorem renameKey_fixed (k t : String)
    (hkeys : dictGet column_mapping t = none)
    (hvals : ∀ kv ∈ column_mapping, kv.2 ≠ t) :
    renameKey k = t ↔ k = t := by
  constructor
  · intro h
    unfold renameKey dictGet at h
    cases hf : column_mapping.find? (fun kv => kv.1 == k) with
    | none =>
      rw [hf] at h
      simpa using h
    | some kv =>
      rw [hf] at h
      have hmem := List.mem_of_find?_eq_some hf
      have : kv.2 = t := by simpa using h
      exact absurd this (hvals kv hmem)
  · intro h
    subst h
    unfold renameKey
    rw [hkeys]
    rfl

theorem renameKey_session_iff (k : String) :
    renameKey k = "session" ↔ k = "session" :=
  renameKey_fixed k "session" (by decide) (by decide)

theorem renameKey_date_iff (k : String) :
    renameKey k = "date" ↔ k = "date" :=
  renameKey_fixed k "date" (by decide) (by decide)

/-- For a key `k` that nothing else renames to, that is not dropped,
and under distinct input keys, the rename loop preserves the lookup. -/
theorem dictGet_clean_record_fields (rec : Dict) (k : String)
    (hNd : (rec.map Prod.fst).Nodup)
    (hiff : ∀ k', renameKey k' = k ↔ k' = k)
    (hkeep : ¬((k == "s") = true ∨ (k == "r") = true)) :
    dictGet (clean_record_fields rec) k = dictGet rec k := by
  have hfold : clean_record_fields rec
      = rec.foldl (fun m kv =>
          match gClean kv with
          | some kv2 => dictInsert m kv2.1 kv2.2
          | none => m) [] := by
    unfold clean_record_fields
    exact List.foldl_ext _ _ [] (fun m kv _ => clean_record_fields_hf m kv)
  rw [hfold, dictGet_foldl gClean _ (fun m a => rfl) rec [] k]
  have hfind : (rec.reverse.filterMap gClean).find? (fun kv => kv.1 == k)
      = (rec.find? (fun kv => kv.1 == k)).map (fun kv => (k, kv.2)) := by
    clear hfold
    induction rec with
    | nil => rfl
    | cons a t ih =>
      rw [List.map_cons, List.nodup_cons] at hNd
      rw [List.reverse_cons, List.filterMap_append, List.find?_append]
      by_cases hak : a.1 = k
      · have hfa : List.find? (fun kv => kv.1 == k) (t.reverse.filterMap gClean) = none := by
          rw [List.find?_eq_none]
          intro kv hkv hbeq
          rcases List.mem_filterMap.1 hkv with ⟨b, hb, hgb⟩
          have hkv1 : kv.1 = renameKey b.1 := by
            simp only [gClean] at hgb
            split at hgb
            · cases hgb
            · cases hgb; rfl
          have : kv.1 = k := by simpa using hbeq
          have hbk : b.1 = k := (hiff b.1).1 (by rw [← hkv1, this])
          have hab : a.1 = b.1 := by rw [hak, ← hbk]
          exact hNd.1 (by
            rw [hab]
            exact List.mem_map.2 ⟨b, List.mem_reverse.1 hb, rfl⟩)
        rw [hfa, Option.none_or]
        have hrk : renameKey a.1 = k := (hiff a.1).2 hak
        have hga : gClean a = some (k, a.2) := by
          simp only [gClean]
          rw [hrk]
          have h1 : (k == "s") = false := by
            cases hb : (k == "s") with
            | false => rfl
            | true => exact absurd (Or.inl hb) hkeep
          have h2 : (k == "r") = false := by
            cases hb : (k == "r") with
            | false => rfl
            | true => exact absurd (Or.inr hb) hkeep
          rw [h1, h2]
          rfl
        have hfa2 : List.filterMap gClean [a] = [(k, a.2)] := by
          rw [List.filterMap_cons, hga]
          rfl
        rw [hfa2]
        have hbk : (a.1 == k) = true := beq_iff_eq.mpr hak
        rw [List.find?_cons_of_pos t (by rw [hbk]),
          List.find?_cons_of_pos ([] : Dict) (by simp)]
        rfl
      · have hga : List.find? (fun kv => kv.1 == k) (List.filterMap gClean [a]) = none := by
          rw [List.find?_eq_none]
          intro kv hkv hbeq
          rcases List.mem_filterMap.1 hkv with ⟨b, hb, hgb⟩
          have hba : b = a := by simpa using hb
          have hkv1 : kv.1 = renameKey b.1 := by
            simp only [gClean] at hgb
            split at hgb
            · cases hgb
            · cases hgb; rfl
          have : kv.1 = k := by simpa using hbeq
          exact hak (by
            rw [← hba]
            exact (hiff b.1).1 (by rw [← hkv1, this]))
        rw [hga, Option.or_none,
          List.find?_cons_of_neg t (by simpa using hak)]
        exact ih hNd.2
  rw [hfind]
  unfold dictGet
  cases rec.find? (fun kv => kv.1 == k) with
  | none => rfl
  | some kv => rfl

/-- A key outside the filled fields is untouched by the fill loop. -/
theorem dictGet_fill_of_not_mem (fields : List String) (cr : Dict) (k : String)
    (hk : k ∉ fields) :
    dictGet (fields.foldl (fun m f =>
      match dictGet m f with
      | none => dictInsert m f ""
      | some _ => m) cr) k = dictGet cr k := by
  induction fields generalizing cr with
  | nil => rfl
  | cons f0 rest ih =>
    have hk0 : k ≠ f0 := fun h => hk (h ▸ List.mem_cons_self f0 rest)
    have hkr : k ∉ rest := fun h => hk (List.mem_cons_of_mem f0 h)
    rw [List.foldl_cons]
    rw [ih _ hkr]
    cases hd : dictGet cr f0 with
    | none =>
      rw [dictGet_dictInsert, if_neg hk0]
    | some v => rfl

/-- After the fill loop every listed field, and every key already
present, is present. -/
theorem isSome_dictGet_fill (fields : List String) (cr : Dict) (k : String)
    (h : k ∈ fields ∨ (dictGet cr k).isSome) :
    (dictGet (fields.foldl (fun m f =>
      match dictGet m f with
      | none => dictInsert m f ""
      | some _ => m) cr) k).isSome := by
  induction fields generalizing cr with
  | nil =>
    rcases h with h | h
    · cases h
    · exact h
  | cons f0 rest ih =>
    rw [List.foldl_cons]
    have hpres : ∀ (m : Dict), (dictGet m k).isSome →
        (dictGet (match dictGet m f0 with
          | none => dictInsert m f0 ""
          | some _ => m) k).isSome := by
      intro m hm
      cases hd : dictGet m f0 with
      | none =>
        rw [dictGet_dictInsert]
        by_cases hk : k = f0
        · rw [if_pos hk]; rfl
        · rw [if_neg hk]; exact hm
      | some v => exact hm
    rcases h with h | h
    · rcases List.mem_cons.1 h with h | h
      · subst h
        apply ih
        right
        cases hd : dictGet cr k with
        | none =>
          show (dictGet (dictInsert cr k "") k).isSome = true
          rw [dictGet_dictInsert, if_pos rfl]
          rfl
        | some v =>
          show (dictGet cr k).isSome = true
          rw [hd]
          rfl
      · exact ih _ (Or.inl h)
    · exact ih _ (Or.inr (hpres cr h))

/-- The session-fill step of `clean_one`. -/
def sessionStep (cr : Dict) : Dict :=
  match dictGet cr "session" with
  | none => dictInsert cr "session" "Rest Day"
  | some _ => cr

/-- The expected-fields fill of `clean_one`. -/
def fillFields (cr : Dict) : Dict :=
  expected_fields.foldl (fun m f =>
    match dictGet m f with
    | none => dictInsert m f ""
    | some _ => m) cr

theorem clean_one_eq_no_date {record : Dict}
    (hd : dictGet (clean_record_fields record) "date" = none) :
    clean_one record = some (fillFields (sessionStep (clean_record_fields record))) := by
  unfold clean_one sessionStep fillFields
  simp only [hd]
  rfl

theorem clean_one_eq_bad_date {record : Dict} {ds : String}
    (hd : dictGet (clean_record_fields record) "date" = some ds)
    (hp : parse_iso ds = none) :
    clean_one record = none := by
  unfold clean_one
  simp only [hd, hp]
  rfl

theorem clean_one_eq_good_date {record : Dict} {ds : String} {ymd : Nat × Nat × Nat}
    (hd : dictGet (clean_record_fields record) "date" = some ds)
    (hp : parse_iso ds = some ymd) :
    clean_one record = some (fillFields (sessionStep
      (dictInsert (clean_record_fields record) "date" (renderYMD ymd.1 ymd.2.1 ymd.2.2)))) := by
  unfold clean_one sessionStep fillFields
  simp only [hd, hp]
  rfl

theorem mapOption_get? {α β : Type} (f : α → Option β) :
    ∀ (l : List α) (out : List β), mapOption f l = some out →
      ∀ (i : Nat) (a : α), l.get? i = some a →
        ∃ b, f a = some b ∧ out.get? i = some b := by
  intro l
  induction l with
  | nil => intro out _ i a ha; cases ha
  | cons x t ih =>
    intro out h i a ha
    unfold mapOption at h
    cases hfx : f x with
    | none => rw [hfx] at h; cases h
    | some b =>
      rw [hfx] at h
      cases hmt : mapOption f t with
      | none => rw [hmt] at h; cases h
      | some bs =>
        rw [hmt] at h
        injection h with hout
        subst hout
        cases i with
        | zero =>
          injection ha with hxa
          subst hxa
          exact ⟨b, hfx, rfl⟩
        | succ i =>
          rw [List.get?_cons_succ] at ha
          obtain ⟨b', hb', hout'⟩ := ih bs hmt i a ha
          exact ⟨b', hb', by rw [List.get?_cons_succ]; exact hout'⟩

/-- Behaviour of the session-fill and field-fill tail of `clean_one`
over any intermediate dict. -/
theorem clean_tail_facts (crX : Dict) :
    (dictGet crX "session" = none →
      dictGet (fillFields (sessionStep crX)) "session" = some "Rest Day") ∧
    (∀ v, dictGet crX "session" = some v →
      dictGet (fillFields (sessionStep crX)) "session" = some v) ∧
    (∀ f ∈ expected_fields, ∃ v, dictGet (fillFields (sessionStep crX)) f = some v) ∧
    (∀ ds, dictGet crX "date" = some ds →
      dictGet (fillFields (sessionStep crX)) "date" = some ds) := by
  have hsess_notmem : ("session" : String) ∉ expected_fields := by decide
  have hdate_notmem : ("date" : String) ∉ expected_fields := by decide
  refine ⟨?_, ?_, ?_, ?_⟩
  · intro hs
    unfold fillFields
    rw [dictGet_fill_of_not_mem expected_fields _ "session" hsess_notmem]
    unfold sessionStep
    rw [hs, dictGet_dictInsert, if_pos rfl]
  · intro v hv
    unfold fillFields
    rw [dictGet_fill_of_not_mem expected_fields _ "session" hsess_notmem]
    unfold sessionStep
    rw [hv]
    exact hv
  · intro f hf
    have := isSome_dictGet_fill expected_fields (sessionStep crX) f (Or.inl hf)
    rw [Option.isSome_iff_exists] at this
    exact this
  · intro ds hds
    unfold fillFields
    rw [dictGet_fill_of_not_mem expected_fields _ "date" hdate_notmem]
    unfold sessionStep
    cases hs : dictGet crX "session" with
    | none =>
      rw [dictGet_dictInsert, if_neg (by decide)]
      exact hds
    | some v => exact hds

/-- Claim C6 (amended): each cleaned record renames its keys, gets
`session = "Rest Day"` exactly when the input had no `session` key (an
empty-string `session` is preserved unchanged, not replaced), has all
six canonical fields present (defaulting to the empty string), and has
its date reformatted to zero-padded `YYYY-MM-DD` form. -/
theorem clean_sessions_spec (records out : List Dict) (i : Nat) (rec : Dict)
    (h : clean_sessions_df_records records = some out)
    (hi : records.get? i = some rec)
    (hnd : (rec.map Prod.fst).Nodup) :
    ∃ orec, out.get? i = some orec ∧
      (dictGet rec "session" = none → dictGet orec "session" = some "Rest Day") ∧
      (∀ v, dictGet rec "session" = some v → dictGet orec "session" = some v) ∧
      (∀ f ∈ expected_fields, ∃ v, dictGet orec f = some v) ∧
      (∀ ds, dictGet rec "date" = some ds →
        ∃ y m d, parse_iso ds = some (y, m, d) ∧
          dictGet orec "date" = some (renderYMD y m d)) := by
  obtain ⟨orec, hfa, hout⟩ := mapOption_get? clean_one records out h i rec hi
  have hsess_cr : dictGet (clean_record_fields rec) "session" = dictGet rec "session" :=
    dictGet_clean_record_fields rec "session" hnd renameKey_session_iff (by decide)
  have hdate_cr : dictGet (clean_record_fields rec) "date" = dictGet rec "date" :=
    dictGet_clean_record_fields rec "date" hnd renameKey_date_iff (by decide)
  cases hd : dictGet rec "date" with
  | none =>
    have hcr : dictGet (clean_record_fields rec) "date" = none := by rw [hdate_cr, hd]
    rw [clean_one_eq_no_date hcr] at hfa
    injection hfa with horec
    subst horec
    obtain ⟨t1, t2, t3, t4⟩ := clean_tail_facts (clean_record_fields rec)
    refine ⟨_, hout, ?_, ?_, t3, ?_⟩
    · intro hs
      exact t1 (by rw [hsess_cr, hs])
    · intro v hv
      exact t2 v (by rw [hsess_cr, hv])
    · intro ds hds
      cases hds
  | some ds =>
    have hcr : dictGet (clean_record_fields rec) "date" = some ds := by rw [hdate_cr, hd]
    cases hp : parse_iso ds with
    | none =>
      rw [clean_one_eq_bad_date hcr hp] at hfa
      cases hfa
    | some ymd =>
      rw [clean_one_eq_good_date hcr hp] at hfa
      injection hfa with horec
      subst horec
      obtain ⟨t1, t2, t3, t4⟩ := clean_tail_facts
        (dictInsert (clean_record_fields rec) "date" (renderYMD ymd.1 ymd.2.1 ymd.2.2))
      have hsess2 : dictGet (dictInsert (clean_record_fields rec) "date"
          (renderYMD ymd.1 ymd.2.1 ymd.2.2)) "session" = dictGet rec "session" := by
        rw [dictGet_dictInsert, if_neg (by decide), hsess_cr]
      have hdate2 : dictGet (dictInsert (clean_record_fields rec) "date"
          (renderYMD ymd.1 ymd.2.1 ymd.2.2)) "date"
          = some (renderYMD ymd.1 ymd.2.1 ymd.2.2) := by
        rw [dictGet_dictInsert, if_pos rfl]
      refine ⟨_, hout, ?_, ?_, t3, ?_⟩
      · intro hs
        exact t1 (by rw [hsess2, hs])
      · intro v hv
        exact t2 v (by rw [hsess2, hv])
      · intro ds' hds'
        injection hds' with hds2
        subst hds2
        refine ⟨ymd.1, ymd.2.1, ymd.2.2, hp, ?_⟩
        exact t4 _ hdate2

/-- Witness for C6's amended theorem at the specification's own
example record. -/
theorem clean_sessions_spec_witness :
    (clean_sessions_df_records [[("Suggested Warm-Up", "x"), ("A.", "y")]]
      = some [[("warm_up", "x"), ("segment_a", "y"), ("session", "Rest Day"),
          ("segment_b", ""), ("segment_c", ""), ("segment_d", ""), ("segment_e", "")]]) ∧
    (∃ orec,
      ([[("warm_up", "x"), ("segment_a", "y"), ("session", "Rest Day"),
          ("segment_b", ""), ("segment_c", ""), ("segment_d", ""),
          ("segment_e", "")]] : List Dict).get? 0 = some orec ∧
      (dictGet [("Suggested Warm-Up", "x"), ("A.", "y")] "session" = none →
        dictGet orec "session" = some "Rest Day") ∧
      (∀ v, dictGet [("Suggested Warm-Up", "x"), ("A.", "y")] "session" = some v →
        dictGet orec "session" = some v) ∧
      (∀ f ∈ expected_fields, ∃ v, dictGet orec f = some v) ∧
      (∀ ds, dictGet [("Suggested Warm-Up", "x"), ("A.", "y")] "date" = some ds →
        ∃ y m d, parse_iso ds = some (y, m, d) ∧
          dictGet orec "date" = some (renderYMD y m d))) :=
  ⟨by decide,
    clean_sessions_spec [[("Suggested Warm-Up", "x"), ("A.", "y")]]
      [[("warm_up", "x"), ("segment_a", "y"), ("session", "Rest Day"),
        ("segment_b", ""), ("segment_c", ""), ("segment_d", ""), ("segment_e", "")]]
      0 [("Suggested Warm-Up", "x"), ("A.", "y")] (by decide) (by decide) (by decide)⟩

/-- Counterexample to C6 as stated: a record whose `session` field is
the empty string keeps the empty string — it is not replaced by
`"Rest Day"`. -/
theorem clean_sessions_empty_session_counterexample :
    clean_sessions_df_records [[("session", ""), ("date", "2024-04-01")]]
      = some [[("session", ""), ("date", "2024-04-01"), ("warm_up", ""),
          ("segment_a", ""), ("segment_b", ""), ("segment_c", ""),
          ("segment_d", ""), ("segment_e", "")]] ∧
    (some "" : Option String) ≠ some "Rest Day" := by
  decide

end WodEtl
